import Mathlib

/-!
# Snippets shape utilities and the Brgemm kernel configuration

A shallow embedding of `src/common/snippets/include/snippets/utils.hpp`, of
`src/plugins/intel_cpu/src/emitters/snippets/x64/kernel_executors/brgemm.hpp` and of the
shape helpers of `src/plugins/intel_cpu/src/nodes/executors/acl/acl_utils.hpp`.

* `size_t` is a `Nat` below `2 ^ 64`; arithmetic results are reduced `% 2 ^ 64`.
* `int64_t` / `dnnl_dim_t` is an `Int`; results are wrapped to `[-2 ^ 63, 2 ^ 63)`.
* `VectorDims` and `std::vector<size_t>` are `List Nat`.
* `OPENVINO_ASSERT` failures are `Except.error`; contract violations of functions that
  are only declared in the headers (index out of range) are `none`.
-/

namespace ov
namespace snippets
namespace utils

/-! ## Machine integers -/

/-- Number of values of a `size_t` (64-bit targets). -/
def SIZE_T_MOD : Nat := 2 ^ 64

/-- Two's-complement wrap of a mathematical integer into the `int64_t` range. -/
def wrap_int64_t (x : Int) : Int := (x + 2 ^ 63) % 2 ^ 64 - 2 ^ 63

/-! ## Sentinel ("dynamic") values: `utils.hpp` lines 62-94 -/

/-- The instantiation `get_dynamic_value<size_t>()`: `std::numeric_limits<size_t>::max()`. -/
def get_dynamic_value_size_t : Nat := 2 ^ 64 - 1

/-- The instantiation `get_dynamic_value<int64_t>()`: `std::numeric_limits<int64_t>::max()`. -/
def get_dynamic_value_int64_t : Int := 2 ^ 63 - 1

/-- The instantiation `is_dynamic_value<size_t>`: `value == get_dynamic_value<T>()`. -/
def is_dynamic_value_size_t (value : Nat) : Bool := value == get_dynamic_value_size_t

/-- The instantiation `is_dynamic_value<int64_t>`. -/
def is_dynamic_value_int64_t (value : Int) : Bool := value == get_dynamic_value_int64_t

/-- The overload `is_dynamic_vdims(const VectorDims&)`: `std::any_of` with `is_dynamic_value`. -/
def is_dynamic_vdims (shape : List Nat) : Bool :=
  shape.any (fun v => is_dynamic_value_size_t v)

/-- The instantiation `dynamic_safe_add<size_t>`. -/
def dynamic_safe_add_size_t (lhs rhs : Nat) : Nat :=
  if is_dynamic_value_size_t lhs || is_dynamic_value_size_t rhs then
    get_dynamic_value_size_t
  else
    (lhs + rhs) % SIZE_T_MOD

/-- The instantiation `dynamic_safe_mul<size_t>`. -/
def dynamic_safe_mul_size_t (lhs rhs : Nat) : Nat :=
  if is_dynamic_value_size_t lhs || is_dynamic_value_size_t rhs then
    get_dynamic_value_size_t
  else
    (lhs * rhs) % SIZE_T_MOD

/-- The instantiation `dynamic_safe_add<int64_t>`. -/
def dynamic_safe_add_int64_t (lhs rhs : Int) : Int :=
  if is_dynamic_value_int64_t lhs || is_dynamic_value_int64_t rhs then
    get_dynamic_value_int64_t
  else
    wrap_int64_t (lhs + rhs)

/-- The instantiation `dynamic_safe_mul<int64_t>`. -/
def dynamic_safe_mul_int64_t (lhs rhs : Int) : Int :=
  if is_dynamic_value_int64_t lhs || is_dynamic_value_int64_t rhs then
    get_dynamic_value_int64_t
  else
    wrap_int64_t (lhs * rhs)

/-! ## Layout look-ups: `utils.hpp` lines 120-129 -/

/-- The function `get_input_dim_idx`: asserts `dim_idx < layout.size()` and returns
`*(layout.rbegin() + dim_idx)`. -/
def get_input_dim_idx (layout : List Nat) (dim_idx : Nat) : Except String Nat :=
  if dim_idx < layout.length then
    .ok (layout.reverse.getD dim_idx 0)
  else
    .error "Incorrect dim_idx"

/-- The function `get_output_dim_idx`: asserts `dim_idx < layout.size()` and returns the
distance from `cbegin()` to `std::find(cbegin(), cend(), layout.size() - 1 - dim_idx)`, which
is `layout.size()` when the value is absent. -/
def get_output_dim_idx (layout : List Nat) (dim_idx : Nat) : Except String Nat :=
  if dim_idx < layout.length then
    .ok (layout.indexOf (layout.length - 1 - dim_idx))
  else
    .error "Incorrect dim_idx"

/-! ## Element count: `utils.hpp` lines 205-212 -/

/-- The call `std::accumulate(first, last, static_cast<size_t>(1), std::multiplies<size_t>())`
over a range of `size_t` values: a left fold of the wrapping `size_t` product. -/
def accumulate_multiplies (range : List Nat) : Nat :=
  range.foldl (fun acc v => (acc * v) % SIZE_T_MOD) 1

/-- The function `get_shape_size`: the accumulated product over the whole shape. -/
def get_shape_size (shape : List Nat) : Nat :=
  accumulate_multiplies shape

/-! ## Shape transforms: declared at `utils.hpp` lines 169-188 and 246-282 -/

/-- Modelled from the spec: the body of `get_planar_vdims(shape, order)`, which the header
only declares. The result has one entry per entry of `order` and `result[i] = shape[order[i]]`
(a gather). An order entry that is not an index of `shape` is a contract violation
(`none`). -/
def get_planar_vdims (shape order : List Nat) : Option (List Nat) :=
  if ∀ j ∈ order, j < shape.length then
    some (order.map (fun j => shape.getD j 0))
  else
    none

/-- Modelled from the spec: the loop of `get_preordered_vdims`, whose body the header does
not contain: `result[order[i]] = shape[i]` for `i = 0, 1, ...`, run over the order entries
paired with the shape entries of the same index. -/
def scatter_loop : List Nat → List Nat → List Nat → List Nat
  | result, o :: order, v :: shape => scatter_loop (result.set o v) order shape
  | result, _, _ => result

/-- Modelled from the spec: the body of `get_preordered_vdims(shape, order)`, which the
header only declares. It is the explicit scatter `result[order[i]] = shape[i]` into a
value-initialised vector of the rank of `shape`. An order of another length than the shape,
or an order entry that is not an index of the result, is a contract violation (`none`). -/
def get_preordered_vdims (shape order : List Nat) : Option (List Nat) :=
  if order.length = shape.length ∧ ∀ j ∈ order, j < shape.length then
    some (scatter_loop (List.replicate shape.length 0) order shape)
  else
    none

/-- Modelled from the spec: the product of a range of dimension values, which the bodies of
`get_in_leading_dim` and `get_out_leading_dim` (not in the header) compute. Spec 3 and 4.1:
multiplication of dimension values is the sentinel-safe `dynamic_safe_mul`, which returns
the sentinel if either operand is the sentinel; the product starts from 1. -/
def dynamic_safe_product (range : List Nat) : Nat :=
  range.foldl dynamic_safe_mul_size_t 1

/-- Modelled from the spec: the body of `get_in_leading_dim(shape, layout)`, which the
header only declares. With `d = layout[layout.size() - 2]` the result is the product of the
dimension values `shape[d + 1 .. end]` of the given shape (the header documents it as the
stride of `shape[d]`, `shape[2] * shape[3]` in its example), a dynamic dimension among them
giving a dynamic result; for a layout of rank below 2 the leading dimension is
conventionally 1. A `d` that is not an index of `shape` is a contract violation (`none`). -/
def get_in_leading_dim (shape layout : List Nat) : Option Nat :=
  if layout.length < 2 then
    some 1
  else
    let d := layout.getD (layout.length - 2) 0
    if d < shape.length then
      some (dynamic_safe_product (shape.drop (d + 1)))
    else
      none

/-- Modelled from the spec: the body of `get_out_leading_dim(shape, layout)`, which the
header only declares. With `p` the position in `layout` that holds the value
`layout.size() - 2`, the result is the product of the dimension values
`shape[p + 1 .. end]` of the already reordered shape, a dynamic dimension among them giving
a dynamic result; for a layout of rank below 2 the leading dimension is conventionally 1. A
`p` that is not an index of `shape` (in particular a layout without the value) is a
contract violation (`none`). -/
def get_out_leading_dim (shape layout : List Nat) : Option Nat :=
  if layout.length < 2 then
    some 1
  else
    let p := layout.indexOf (layout.length - 2)
    if p < shape.length then
      some (dynamic_safe_product (shape.drop (p + 1)))
    else
      none

/-! ## Formatting: `utils.hpp` lines 96-113 -/

/-- The instantiation `value2str<size_t>`: `"?"` for the sentinel, otherwise
`std::to_string(value)`, the decimal digits. -/
def value2str_size_t (value : Nat) : String :=
  if is_dynamic_value_size_t value then "?" else toString value

/-- The instantiation `value2str<int64_t>`: `"?"` for the sentinel, otherwise
`std::to_string(value)`, the decimal digits after a `-` for a negative value. -/
def value2str_int64_t (value : Int) : String :=
  if is_dynamic_value_int64_t value then "?" else toString value

/-- One iteration of the loop of `vector2str` on the state `(str, first)`: the stream
receives `","` unless `first` is set, then the rendering of `v`, and `first` is cleared. -/
def vector2str_step {T : Type} (value2str : T → String) (state : String × Bool) (v : T) :
    String × Bool :=
  let str := if !state.2 then state.1 ++ "," else state.1
  (str ++ value2str v, false)

/-- The instantiation `vector2str<size_t>`: the loop over `values` from the empty stream
with `first = true`, returning `str.str()`. -/
def vector2str_size_t (values : List Nat) : String :=
  (values.foldl (vector2str_step value2str_size_t) ("", true)).1

/-- The instantiation `vector2str<int64_t>`. -/
def vector2str_int64_t (values : List Int) : String :=
  (values.foldl (vector2str_step value2str_int64_t) ("", true)).1

/-! ## Rounded-up division: `utils.hpp` lines 56-60 -/

/-- The instantiation `div_up<size_t, size_t>`: asserts `b != 0` and returns
`(a + b - 1) / b`, the sum and the difference computed in wrapping `size_t` arithmetic. -/
def div_up_size_t (a b : Nat) : Except String Nat :=
  if b != 0 then
    .ok ((((a + b) % SIZE_T_MOD + (SIZE_T_MOD - 1)) % SIZE_T_MOD) / b)
  else
    .error "Divider must not be zero"

end utils
end snippets
end ov

namespace ov
namespace intel_cpu

/-! ## `BrgemmKernelConfig`: `brgemm.hpp` lines 14-62 -/

/-- The enumerator `dnnl_f32` of oneDNN's `dnnl_data_type_t`, by its numeric value. -/
def dnnl_f32 : Nat := 3

/-- The enumerator `isa_undef` of oneDNN's `cpu_isa_t`, by its numeric value. -/
def isa_undef : Nat := 0

/-- The constant `SIZE_MAX` of a 64-bit `size_t`. -/
def SIZE_MAX : Nat := 2 ^ 64 - 1

/-- The data members of `BrgemmKernelConfig` (lines 55-61). Enumerations are stored by their
numeric value, the `float` `m_beta` by its bit pattern, `dnnl_dim_t` members as integers. -/
structure BrgemmKernelConfig where
  m_dt_in0 : Nat
  m_dt_in1 : Nat
  m_is_with_amx : Bool
  m_is_with_comp : Bool
  m_beta : Nat
  m_isa : Nat
  m_M : Int
  m_N : Int
  m_K : Int
  m_LDA : Int
  m_LDB : Int
  m_LDC : Int
  m_hash : Nat
  deriving DecidableEq, Repr

/-- The defaulted constructor `BrgemmKernelConfig() = default`: every member takes its
default member initializer. -/
def BrgemmKernelConfig.ctor_default : BrgemmKernelConfig where
  m_dt_in0 := dnnl_f32
  m_dt_in1 := dnnl_f32
  m_is_with_amx := false
  m_is_with_comp := false
  m_beta := 0
  m_isa := isa_undef
  m_M := 0
  m_N := 0
  m_K := 0
  m_LDA := 0
  m_LDB := 0
  m_LDC := 0
  m_hash := SIZE_MAX

/-- The method `hash()`: returns the stored `m_hash`. -/
def BrgemmKernelConfig.hash (c : BrgemmKernelConfig) : Nat := c.m_hash

/-- The getter `get_dt_in0()`. -/
def BrgemmKernelConfig.get_dt_in0 (c : BrgemmKernelConfig) : Nat := c.m_dt_in0

/-- The getter `get_dt_in1()`. -/
def BrgemmKernelConfig.get_dt_in1 (c : BrgemmKernelConfig) : Nat := c.m_dt_in1

/-- The getter `get_isa()`. -/
def BrgemmKernelConfig.get_isa (c : BrgemmKernelConfig) : Nat := c.m_isa

/-- The getter `is_with_amx()`. -/
def BrgemmKernelConfig.is_with_amx (c : BrgemmKernelConfig) : Bool := c.m_is_with_amx

/-- The getter `is_with_comp()`. -/
def BrgemmKernelConfig.is_with_comp (c : BrgemmKernelConfig) : Bool := c.m_is_with_comp

/-- The getter `get_beta()`. -/
def BrgemmKernelConfig.get_beta (c : BrgemmKernelConfig) : Nat := c.m_beta

/-- The getter `get_M()`. -/
def BrgemmKernelConfig.get_M (c : BrgemmKernelConfig) : Int := c.m_M

/-- The getter `get_N()`. -/
def BrgemmKernelConfig.get_N (c : BrgemmKernelConfig) : Int := c.m_N

/-- The getter `get_K()`. -/
def BrgemmKernelConfig.get_K (c : BrgemmKernelConfig) : Int := c.m_K

/-- The getter `get_LDA()`. -/
def BrgemmKernelConfig.get_LDA (c : BrgemmKernelConfig) : Int := c.m_LDA

/-- The getter `get_LDB()`. -/
def BrgemmKernelConfig.get_LDB (c : BrgemmKernelConfig) : Int := c.m_LDB

/-- The getter `get_LDC()`. -/
def BrgemmKernelConfig.get_LDC (c : BrgemmKernelConfig) : Int := c.m_LDC

/-- The implicitly defined copy constructor that `clone()` calls through
`std::make_shared<BrgemmKernelConfig>(*this)`: a member-wise copy, `m_hash` included. -/
def BrgemmKernelConfig.copy_ctor (other : BrgemmKernelConfig) : BrgemmKernelConfig where
  m_dt_in0 := other.m_dt_in0
  m_dt_in1 := other.m_dt_in1
  m_is_with_amx := other.m_is_with_amx
  m_is_with_comp := other.m_is_with_comp
  m_beta := other.m_beta
  m_isa := other.m_isa
  m_M := other.m_M
  m_N := other.m_N
  m_K := other.m_K
  m_LDA := other.m_LDA
  m_LDB := other.m_LDB
  m_LDC := other.m_LDC
  m_hash := other.m_hash

/-- The objects that shared pointers to configurations refer to: a pointer is an index into
the heap. -/
abbrev ConfigHeap : Type := List BrgemmKernelConfig

/-- The method `clone()` on the object at address `this_ptr`: `std::make_shared` places a
copy-constructed object at a fresh address of the heap and returns that address; the
method is `const`, no existing object is written. A dangling `this_ptr` is `none`. -/
def BrgemmKernelConfig.clone (heap : ConfigHeap) (this_ptr : Nat) : Option (ConfigHeap × Nat) :=
  match heap[this_ptr]? with
  | none => none
  | some c => some (heap ++ [BrgemmKernelConfig.copy_ctor c], heap.length)

/-- Modelled from the spec: the declaration of `amx_tile_config_t`, which the header uses
but does not contain: the register-tile geometry `M`, `K`, `N` that is compared with the
configuration's `M`, `N`, `K`. -/
structure amx_tile_config_t where
  M : Int
  K : Int
  N : Int
  deriving DecidableEq, Repr

/-- The method `compatible(amx_tile_config_t* rhs)`; a null pointer is `none`. -/
def BrgemmKernelConfig.compatible (c : BrgemmKernelConfig) (rhs : Option amx_tile_config_t) :
    Bool :=
  match rhs with
  | none => false
  | some t => t.M == c.m_M && t.N == c.m_N && t.K == c.m_K

/-- The type of the hash combination over the twelve field values, which the header does
not contain. -/
abbrev FieldHash : Type :=
  Nat → Nat → Bool → Bool → Nat → Nat → Int → Int → Int → Int → Int → Int → Nat

/-- Modelled from the spec: the body of `compute_hash()`, which the header only declares.
The hash is deterministic and determined by the fields that make up value equality; the
combination `H` of the twelve field values is a parameter, its result a `size_t`. -/
def BrgemmKernelConfig.compute_hash (H : FieldHash) (c : BrgemmKernelConfig) : Nat :=
  H c.m_dt_in0 c.m_dt_in1 c.m_is_with_amx c.m_is_with_comp c.m_beta c.m_isa
    c.m_M c.m_N c.m_K c.m_LDA c.m_LDB c.m_LDC % 2 ^ 64

/-- Modelled from the spec: the body of the eleven-argument constructor, which the header
only declares. It stores the type, flag and `beta` arguments, fixes the instruction set from
them (`isa_of`, a parameter), converts the six `size_t` dimensions to `dnnl_dim_t`, and
stores the hash of the resulting fields. -/
def BrgemmKernelConfig.ctor (H : FieldHash) (isa_of : Nat → Nat → Bool → Nat)
    (in0_dtype in1_dtype : Nat) (beta : Nat) (is_with_amx is_with_comp : Bool)
    (M N K LDA LDB LDC : Nat) : BrgemmKernelConfig :=
  let c : BrgemmKernelConfig :=
    { m_dt_in0 := in0_dtype
      m_dt_in1 := in1_dtype
      m_is_with_amx := is_with_amx
      m_is_with_comp := is_with_comp
      m_beta := beta
      m_isa := isa_of in0_dtype in1_dtype is_with_amx
      m_M := snippets.utils.wrap_int64_t M
      m_N := snippets.utils.wrap_int64_t N
      m_K := snippets.utils.wrap_int64_t K
      m_LDA := snippets.utils.wrap_int64_t LDA
      m_LDB := snippets.utils.wrap_int64_t LDB
      m_LDC := snippets.utils.wrap_int64_t LDC
      m_hash := SIZE_MAX }
  { c with m_hash := c.compute_hash H }

/-- Modelled from the spec: the body of `update(M, N, K, LDA, LDB, LDC)`, which the header
only declares. It overwrites the six numeric fields, leaves the type and instruction-set
fields alone, and replaces the cached hash by the hash of the new fields (`hash()` itself
only returns `m_hash`, so the recomputation happens here). -/
def BrgemmKernelConfig.update (H : FieldHash) (c : BrgemmKernelConfig)
    (M N K LDA LDB LDC : Int) : BrgemmKernelConfig :=
  let c1 : BrgemmKernelConfig :=
    { c with m_M := M, m_N := N, m_K := K, m_LDA := LDA, m_LDB := LDB, m_LDC := LDC }
  { c1 with m_hash := c1.compute_hash H }

/-- Modelled from the spec: the body of `is_completed()`, which the header only declares.
It is true iff `M`, `N`, `K` and the three leading dimensions are nonzero and the
element-type and instruction-set fields are resolved; what counts as resolved is the
parameter `resolved`. -/
def BrgemmKernelConfig.is_completed (resolved : Nat → Nat → Nat → Bool)
    (c : BrgemmKernelConfig) : Bool :=
  c.m_M != 0 && c.m_N != 0 && c.m_K != 0 && c.m_LDA != 0 && c.m_LDB != 0 && c.m_LDC != 0
    && resolved c.m_dt_in0 c.m_dt_in1 c.m_isa

/-- The six arguments `(M, N, K, LDA, LDB, LDC)` of one `update` call. -/
abbrev UpdateArgs : Type := Int × Int × Int × Int × Int × Int

/-- A sequence of `update` calls applied in order to a configuration. -/
def BrgemmKernelConfig.run_updates (H : FieldHash) (c : BrgemmKernelConfig)
    (us : List UpdateArgs) : BrgemmKernelConfig :=
  us.foldl (fun c u => c.update H u.1 u.2.1 u.2.2.1 u.2.2.2.1 u.2.2.2.2.1 u.2.2.2.2.2) c

/-- Two configurations agree on every field that the getters expose: the data types, the
flags, `beta`, the instruction set and the six dimensions (the cached hash is not a
field in this sense). -/
def BrgemmKernelConfig.same_fields (c1 c2 : BrgemmKernelConfig) : Prop :=
  c1.m_dt_in0 = c2.m_dt_in0 ∧ c1.m_dt_in1 = c2.m_dt_in1 ∧
  c1.m_is_with_amx = c2.m_is_with_amx ∧ c1.m_is_with_comp = c2.m_is_with_comp ∧
  c1.m_beta = c2.m_beta ∧ c1.m_isa = c2.m_isa ∧
  c1.m_M = c2.m_M ∧ c1.m_N = c2.m_N ∧ c1.m_K = c2.m_K ∧
  c1.m_LDA = c2.m_LDA ∧ c1.m_LDB = c2.m_LDB ∧ c1.m_LDC = c2.m_LDC

instance (c1 c2 : BrgemmKernelConfig) : Decidable (c1.same_fields c2) := by
  unfold BrgemmKernelConfig.same_fields
  infer_instance

/-- A configuration made by the eleven-argument constructor, or any configuration (a
default-constructed one included) after an `update` call, then taken through any number of
further `update` calls. -/
def BrgemmKernelConfig.constructed_or_updated (H : FieldHash)
    (isa_of : Nat → Nat → Bool → Nat) (c : BrgemmKernelConfig) : Prop :=
  (∃ (in0_dtype in1_dtype beta : Nat) (is_with_amx is_with_comp : Bool)
    (M N K LDA LDB LDC : Nat) (us : List UpdateArgs),
    c = (BrgemmKernelConfig.ctor H isa_of in0_dtype in1_dtype beta is_with_amx is_with_comp
          M N K LDA LDB LDC).run_updates H us) ∨
  (∃ (c0 : BrgemmKernelConfig) (M N K LDA LDB LDC : Int) (us : List UpdateArgs),
    c = (c0.update H M N K LDA LDB LDC).run_updates H us)

/-- A sample hash combination (the sum of the field values), used to instantiate the
parameter at concrete configurations. -/
def sample_field_hash : FieldHash :=
  fun dt0 dt1 amx comp beta isa M N K LDA LDB LDC =>
    dt0 + dt1 + amx.toNat + comp.toNat + beta + isa
      + (M + N + K + LDA + LDB + LDC).toNat

/-- A sample instruction-set choice: code 1 with the register-tile flag, code 2 without. -/
def sample_isa_of : Nat → Nat → Bool → Nat :=
  fun _ _ amx => if amx then 1 else 2

/-- A sample resolution check: the instruction set is not `isa_undef`. -/
def sample_resolved : Nat → Nat → Nat → Bool :=
  fun _ _ isa => isa != isa_undef

/-! ## ACL shape helpers: `acl_utils.hpp` lines 12-51 -/

/-- The function `collapse_dims_to_max_rank(dims)`. The constant `arm_compute::MAX_DIMS` of
the Compute Library (6 there) is the parameter `MAX_DIMS`; the subtractions are those of
the source for `MAX_DIMS >= 2`. `result_dims` starts as `MAX_NUM_SHAPE - 1` zeros; for
`dims.size() >= MAX_NUM_SHAPE` the first loop copies `dims[i]` for `i < MAX_NUM_SHAPE - 1`
and the second multiplies `result_dims[MAX_NUM_SHAPE - 2]` by `dims[i]` for
`MAX_NUM_SHAPE - 1 <= i < dims.size()` in `size_t` arithmetic; otherwise `result_dims` is
`dims`. -/
def collapse_dims_to_max_rank (MAX_DIMS : Nat) (dims : List Nat) : List Nat :=
  let MAX_NUM_SHAPE := MAX_DIMS
  let result_dims := List.replicate (MAX_NUM_SHAPE - 1) 0
  if dims.length ≥ MAX_NUM_SHAPE then
    let result_dims := (List.range (MAX_NUM_SHAPE - 1)).foldl
      (fun r i => r.set i (dims.getD i 0)) result_dims
    (List.range' (MAX_NUM_SHAPE - 1) (dims.length - (MAX_NUM_SHAPE - 1))).foldl
      (fun r i => r.set (MAX_NUM_SHAPE - 2)
        ((r.getD (MAX_NUM_SHAPE - 2) 0 * dims.getD i 0) % 2 ^ 64)) result_dims
  else
    dims

/-- The call `std::swap(_shape[i], _shape[j])` on a shape given by its `num_dimensions()`
dimensions. -/
def swap_dims (shape : List Nat) (i j : Nat) : List Nat :=
  (shape.set i (shape.getD j 0)).set j (shape.getD i 0)

/-- The lambda `mover` of `changeLayoutToNH_C`: three guarded swaps; the swaps do not change
`num_dimensions()`, and every index they touch is below it. -/
def mover (shape : List Nat) : List Nat :=
  let s1 := if shape.length > 4 then swap_dims shape 2 3 else shape
  let s2 := if s1.length > 3 then swap_dims s1 1 2 else s1
  if s2.length > 2 then swap_dims s2 0 1 else s2

/-- The function `changeLayoutToNH_C(_listDims)`: `mover` is applied, in order, to the shape
behind every pointer of the list; `heap` holds the shapes, a pointer is an index. -/
def changeLayoutToNH_C (heap : List (List Nat)) (listDims : List Nat) : List (List Nat) :=
  listDims.foldl (fun h ptr => h.set ptr (mover (h.getD ptr []))) heap

end intel_cpu
end ov

namespace ov
namespace snippets
namespace utils

/-! ## Sentinel arithmetic -/

/-- C1: for `size_t` operands `a`, `b` and `int64_t` operands `x`, `y`, if one operand of a
pair is the sentinel then `dynamic_safe_add` and `dynamic_safe_mul` return the sentinel,
whatever the other operand is; in particular `dynamic_safe_mul(sentinel, 0)` is the
sentinel and not `0`. Both functions are total (they have no failing path). -/
theorem dynamic_safe_sentinel_absorbs (a b : Nat) (x y : Int)
    (hab : a = get_dynamic_value_size_t ∨ b = get_dynamic_value_size_t)
    (hxy : x = get_dynamic_value_int64_t ∨ y = get_dynamic_value_int64_t) :
    dynamic_safe_add_size_t a b = get_dynamic_value_size_t ∧
    dynamic_safe_mul_size_t a b = get_dynamic_value_size_t ∧
    dynamic_safe_add_int64_t x y = get_dynamic_value_int64_t ∧
    dynamic_safe_mul_int64_t x y = get_dynamic_value_int64_t ∧
    dynamic_safe_mul_size_t get_dynamic_value_size_t 0 = get_dynamic_value_size_t ∧
    dynamic_safe_mul_int64_t get_dynamic_value_int64_t 0 = get_dynamic_value_int64_t := by
  have hs : (is_dynamic_value_size_t a || is_dynamic_value_size_t b) = true := by
    rcases hab with h | h <;> simp [is_dynamic_value_size_t, h]
  have hi : (is_dynamic_value_int64_t x || is_dynamic_value_int64_t y) = true := by
    rcases hxy with h | h <;> simp [is_dynamic_value_int64_t, h]
  refine ⟨?_, ?_, ?_, ?_, ?_, ?_⟩
  · simp [dynamic_safe_add_size_t, hs]
  · simp [dynamic_safe_mul_size_t, hs]
  · simp [dynamic_safe_add_int64_t, hi]
  · simp [dynamic_safe_mul_int64_t, hi]
  · simp [dynamic_safe_mul_size_t, is_dynamic_value_size_t]
  · simp [dynamic_safe_mul_int64_t, is_dynamic_value_int64_t]

/-- Witness for C1 at `a = sentinel, b = 0` and `x = 7, y = sentinel`. -/
theorem dynamic_safe_sentinel_absorbs_witness :
    dynamic_safe_add_size_t (2 ^ 64 - 1) 0 = get_dynamic_value_size_t ∧
    dynamic_safe_mul_size_t (2 ^ 64 - 1) 0 = get_dynamic_value_size_t ∧
    dynamic_safe_add_int64_t 7 (2 ^ 63 - 1) = get_dynamic_value_int64_t ∧
    dynamic_safe_mul_int64_t 7 (2 ^ 63 - 1) = get_dynamic_value_int64_t ∧
    dynamic_safe_mul_size_t get_dynamic_value_size_t 0 = get_dynamic_value_size_t ∧
    dynamic_safe_mul_int64_t get_dynamic_value_int64_t 0 = get_dynamic_value_int64_t :=
  dynamic_safe_sentinel_absorbs (2 ^ 64 - 1) 0 7 (2 ^ 63 - 1) (Or.inl rfl) (Or.inr rfl)

/-! ## Planar and preordered shapes -/

theorem scatter_loop_length (order shape result : List Nat) :
    (scatter_loop result order shape).length = result.length := by
  induction order generalizing result shape with
  | nil => simp [scatter_loop]
  | cons o order ih =>
    cases shape with
    | nil => simp [scatter_loop]
    | cons v shape => simp [scatter_loop, ih]

theorem scatter_loop_getElem?_of_not_mem (order shape result : List Nat) (j : Nat)
    (hj : j ∉ order) : (scatter_loop result order shape)[j]? = result[j]? := by
  induction order generalizing result shape with
  | nil => simp [scatter_loop]
  | cons o order ih =>
    cases shape with
    | nil => simp [scatter_loop]
    | cons v shape =>
      have hne : o ≠ j := fun h => hj (by simp [h])
      have hj2 : j ∉ order := fun h => hj (by simp [h])
      simp only [scatter_loop]
      rw [ih shape (result.set o v) hj2, List.getElem?_set_ne hne]

theorem scatter_loop_getElem?_of_mem (order shape result : List Nat)
    (hnd : order.Nodup) (hlen : order.length = shape.length)
    (hlt : ∀ o ∈ order, o < result.length) (i : Nat) (hi : i < order.length) :
    (scatter_loop result order shape)[order[i]]? = shape[i]? := by
  induction order generalizing result shape i with
  | nil => simp at hi
  | cons o order ih =>
    cases shape with
    | nil => simp at hlen
    | cons v shape =>
      simp only [scatter_loop]
      have hnd2 := List.nodup_cons.mp hnd
      cases i with
      | zero =>
        have ho : o < result.length := hlt o (by simp)
        simp only [List.getElem_cons_zero, List.getElem?_cons_zero]
        rw [scatter_loop_getElem?_of_not_mem order shape (result.set o v) o hnd2.1]
        simp [ho]
      | succ i =>
        simp only [List.getElem_cons_succ, List.getElem?_cons_succ]
        apply ih shape (result.set o v) hnd2.2
        · simpa using hlen
        · intro o2 ho2
          rw [List.length_set]
          exact hlt o2 (by simp [ho2])

theorem perm_range_lt {order : List Nat} {n : Nat} (hp : order.Perm (List.range n)) :
    ∀ j ∈ order, j < n := by
  intro j hj
  exact List.mem_range.mp (hp.mem_iff.mp hj)

theorem perm_range_nodup {order : List Nat} {n : Nat} (hp : order.Perm (List.range n)) :
    order.Nodup :=
  hp.nodup_iff.mpr (List.nodup_range n)

theorem perm_range_length {order : List Nat} {n : Nat} (hp : order.Perm (List.range n)) :
    order.length = n := by
  simpa using hp.length_eq

theorem get_planar_vdims_eq (shape order : List Nat) (h : ∀ j ∈ order, j < shape.length) :
    get_planar_vdims shape order = some (order.map (fun j => shape.getD j 0)) := by
  simp only [get_planar_vdims]
  rw [if_pos h]

theorem get_preordered_vdims_eq (shape order : List Nat)
    (hp : order.Perm (List.range shape.length)) :
    get_preordered_vdims shape order
      = some (scatter_loop (List.replicate shape.length 0) order shape) := by
  simp only [get_preordered_vdims]
  rw [if_pos ⟨perm_range_length hp, perm_range_lt hp⟩]

/-- C2: round-trip law. For every shape `s` and every order that is a permutation of
`0 .. rank(s) - 1`, `get_planar_vdims(s, order)` is defined and applying
`get_preordered_vdims` with the same order to it gives back `s`. -/
theorem preordered_planar_roundtrip (s order : List Nat)
    (hp : order.Perm (List.range s.length)) :
    (get_planar_vdims s order).bind (fun planar => get_preordered_vdims planar order)
      = some s := by
  have hlt := perm_range_lt hp
  have hlen := perm_range_length hp
  have hnd := perm_range_nodup hp
  rw [get_planar_vdims_eq s order hlt]
  have hplen : (order.map (fun j => s.getD j 0)).length = s.length := by simp [hlen]
  have hp2 : order.Perm (List.range (order.map (fun j => s.getD j 0)).length) := by
    rw [hplen]; exact hp
  simp only [Option.some_bind]
  rw [get_preordered_vdims_eq _ order hp2]
  congr 1
  apply List.ext_getElem?
  intro j
  by_cases hj : j < s.length
  · have hmem : j ∈ order := hp.mem_iff.mpr (List.mem_range.mpr hj)
    obtain ⟨i, hi, hij⟩ := List.getElem_of_mem hmem
    have key := scatter_loop_getElem?_of_mem order (order.map (fun j => s.getD j 0))
      (List.replicate (order.map (fun j => s.getD j 0)).length 0) hnd (by simp)
      (by intro o ho; simp only [List.length_replicate, hplen]; exact hlt o ho) i hi
    rw [hij] at key
    rw [key]
    simp [hi, hij, hj]
  · have h1 : s.length ≤ j := Nat.le_of_not_lt hj
    rw [List.getElem?_eq_none (by rw [scatter_loop_length]; simpa [hlen] using h1),
      List.getElem?_eq_none h1]

/-- Witness for C2 at the shape `[16, 2, 32, 64]` with the order `[2, 0, 1, 3]`. -/
theorem preordered_planar_roundtrip_witness :
    (get_planar_vdims [16, 2, 32, 64] [2, 0, 1, 3]).bind
      (fun planar => get_preordered_vdims planar [2, 0, 1, 3]) = some [16, 2, 32, 64] :=
  preordered_planar_roundtrip [16, 2, 32, 64] [2, 0, 1, 3] (by decide)

/-- C3: for every shape and every order of the same length whose entries are all below
the rank, `get_planar_vdims(shape, order)` returns a vector `r` of the same rank with
`r[i] = shape[order[i]]` for every `i` (a gather that copies every dimension value,
sentinel or not, unchanged); shape `[16,2,32,64]` with order `[2,0,1,3]` gives
`[32,16,2,64]`. -/
theorem get_planar_vdims_gather (shape order : List Nat)
    (hlen : order.length = shape.length) (hlt : ∀ j ∈ order, j < shape.length) :
    (∃ r, get_planar_vdims shape order = some r ∧ r.length = shape.length ∧
      ∀ i (hi : i < order.length), r[i]? = shape[order[i]]?) ∧
    get_planar_vdims [16, 2, 32, 64] [2, 0, 1, 3] = some [32, 16, 2, 64] := by
  refine ⟨⟨_, get_planar_vdims_eq shape order hlt, by simp [hlen], ?_⟩, by decide⟩
  intro i hi
  have h2 : order[i] < shape.length := hlt _ (List.getElem_mem hi)
  simp [hi, h2]

/-- Witness for C3 at the shape `[7, 2 ^ 64 - 1, 5]` with the order `[1, 1, 0]`. -/
theorem get_planar_vdims_gather_witness :
    (∃ r, get_planar_vdims [7, 2 ^ 64 - 1, 5] [1, 1, 0] = some r ∧
      r.length = [7, 2 ^ 64 - 1, 5].length ∧
      ∀ i (hi : i < [1, 1, 0].length), r[i]? = [7, 2 ^ 64 - 1, 5][[1, 1, 0][i]]?) ∧
    get_planar_vdims [16, 2, 32, 64] [2, 0, 1, 3] = some [32, 16, 2, 64] :=
  get_planar_vdims_gather [7, 2 ^ 64 - 1, 5] [1, 1, 0] (by decide) (by decide)

/-- C4: for every shape and every order that is a permutation of `0 .. rank - 1`,
`get_preordered_vdims(shape, order)` returns a vector `r` of the same rank with
`r[order[i]] = shape[i]` for every `i`; it is the inverse of `get_planar_vdims`
(gathering `r` with the same order gives `shape` back); `[32,16,2,64]` with order
`[2,0,1,3]` gives `[16,2,32,64]` and `[16,2,32,64]` with order `[2,0,1,3]` gives
`[2,32,16,64]`. -/
theorem get_preordered_vdims_scatter (shape order : List Nat)
    (hp : order.Perm (List.range shape.length)) :
    (∃ r, get_preordered_vdims shape order = some r ∧ r.length = shape.length ∧
      (∀ i (hi : i < order.length), r[order[i]]? = shape[i]?) ∧
      get_planar_vdims r order = some shape) ∧
    get_preordered_vdims [32, 16, 2, 64] [2, 0, 1, 3] = some [16, 2, 32, 64] ∧
    get_preordered_vdims [16, 2, 32, 64] [2, 0, 1, 3] = some [2, 32, 16, 64] := by
  have hlt := perm_range_lt hp
  have hlen := perm_range_length hp
  have hnd := perm_range_nodup hp
  have hrlen : (scatter_loop (List.replicate shape.length 0) order shape).length
      = shape.length := by simp [scatter_loop_length]
  have hget : ∀ i (hi : i < order.length),
      (scatter_loop (List.replicate shape.length 0) order shape)[order[i]]? = shape[i]? :=
    fun i hi => scatter_loop_getElem?_of_mem order shape _ hnd hlen
      (by intro o ho; simpa using hlt o ho) i hi
  refine ⟨⟨_, get_preordered_vdims_eq shape order hp, hrlen, hget, ?_⟩, by decide, by decide⟩
  rw [get_planar_vdims_eq _ order (by intro j hj; rw [hrlen]; exact hlt j hj)]
  congr 1
  apply List.ext_getElem?
  intro i
  by_cases hi : i < order.length
  · have h1 := hget i hi
    have h2 : i < shape.length := hlen ▸ hi
    rw [List.getElem?_eq_getElem h2] at h1
    simp [hi, List.getD_eq_getElem?_getD, h1, h2]
  · have h1 : order.length ≤ i := Nat.le_of_not_lt hi
    rw [List.getElem?_eq_none (by simpa using h1), List.getElem?_eq_none (hlen ▸ h1)]

/-- Witness for C4 at the shape `[32, 16, 2, 64]` with the order `[2, 0, 1, 3]`. -/
theorem get_preordered_vdims_scatter_witness :
    (∃ r, get_preordered_vdims [32, 16, 2, 64] [2, 0, 1, 3] = some r ∧
      r.length = [32, 16, 2, 64].length ∧
      (∀ i (hi : i < [2, 0, 1, 3].length), r[[2, 0, 1, 3][i]]? = [32, 16, 2, 64][i]?) ∧
      get_planar_vdims r [2, 0, 1, 3] = some [32, 16, 2, 64]) ∧
    get_preordered_vdims [32, 16, 2, 64] [2, 0, 1, 3] = some [16, 2, 32, 64] ∧
    get_preordered_vdims [16, 2, 32, 64] [2, 0, 1, 3] = some [2, 32, 16, 64] :=
  get_preordered_vdims_scatter [32, 16, 2, 64] [2, 0, 1, 3] (by decide)

/-! ## Leading dimensions -/

theorem foldl_multiplies_eq (range : List Nat) (acc : Nat) (hacc : acc < SIZE_T_MOD) :
    range.foldl (fun acc v => (acc * v) % SIZE_T_MOD) acc
      = (acc * range.prod) % SIZE_T_MOD := by
  induction range generalizing acc with
  | nil => simp [Nat.mod_eq_of_lt hacc]
  | cons v range ih =>
    have hpos : 0 < SIZE_T_MOD := by decide
    simp only [List.foldl_cons, List.prod_cons]
    rw [ih _ (Nat.mod_lt _ hpos), Nat.mod_mul_mod, Nat.mul_assoc]

theorem accumulate_multiplies_eq (range : List Nat) :
    accumulate_multiplies range = range.prod % 2 ^ 64 := by
  have h := foldl_multiplies_eq range 1 (by decide)
  simpa [accumulate_multiplies, SIZE_T_MOD] using h

theorem foldl_dynamic_safe_mul_sentinel (range : List Nat) :
    range.foldl dynamic_safe_mul_size_t get_dynamic_value_size_t
      = get_dynamic_value_size_t := by
  induction range with
  | nil => rfl
  | cons x range ih =>
    have h : dynamic_safe_mul_size_t get_dynamic_value_size_t x
        = get_dynamic_value_size_t := by
      simp [dynamic_safe_mul_size_t, is_dynamic_value_size_t]
    rw [List.foldl_cons, h, ih]

theorem foldl_dynamic_safe_mul_of_dynamic (range : List Nat) (acc : Nat)
    (h : is_dynamic_vdims range = true) :
    range.foldl dynamic_safe_mul_size_t acc = get_dynamic_value_size_t := by
  induction range generalizing acc with
  | nil => simp [is_dynamic_vdims] at h
  | cons x range ih =>
    rw [List.foldl_cons]
    by_cases hx : x = get_dynamic_value_size_t
    · have hs : dynamic_safe_mul_size_t acc x = get_dynamic_value_size_t := by
        simp [dynamic_safe_mul_size_t, is_dynamic_value_size_t, hx]
      rw [hs, foldl_dynamic_safe_mul_sentinel]
    · apply ih
      simp only [is_dynamic_vdims, List.any_cons, Bool.or_eq_true] at h ⊢
      rcases h with h | h
      · exact absurd (by simpa [is_dynamic_value_size_t] using h) hx
      · exact h

theorem foldl_dynamic_safe_mul_of_concrete (range : List Nat) (acc : Nat)
    (hacc : acc < 2 ^ 64 - 1) (hno : is_dynamic_vdims range = false)
    (hrun : ∀ k, k ≤ range.length → (acc * (range.take k).prod) % 2 ^ 64 ≠ 2 ^ 64 - 1) :
    range.foldl dynamic_safe_mul_size_t acc = (acc * range.prod) % 2 ^ 64 := by
  induction range generalizing acc with
  | nil =>
    simp only [List.foldl_nil, List.prod_nil, Nat.mul_one]
    exact (Nat.mod_eq_of_lt (by omega)).symm
  | cons x range ih =>
    have hx : x ≠ get_dynamic_value_size_t := by
      intro hx
      simp [is_dynamic_vdims, is_dynamic_value_size_t, hx] at hno
    have hrest : is_dynamic_vdims range = false := by
      cases hr : is_dynamic_vdims range with
      | false => rfl
      | true =>
        have : is_dynamic_vdims (x :: range) = true := by
          simp only [is_dynamic_vdims, List.any_cons] at hr ⊢
          simp [hr]
        rw [this] at hno
        exact Bool.noConfusion hno
    have ha : acc ≠ get_dynamic_value_size_t := by
      simp only [get_dynamic_value_size_t]
      omega
    have hstep : dynamic_safe_mul_size_t acc x = (acc * x) % 2 ^ 64 := by
      simp [dynamic_safe_mul_size_t, is_dynamic_value_size_t, ha, hx, SIZE_T_MOD]
    have h1 := hrun 1 (by simp)
    simp only [List.take_succ_cons, List.take_zero, List.prod_cons, List.prod_nil,
      Nat.mul_one] at h1
    have hlt : (acc * x) % 2 ^ 64 < 2 ^ 64 := Nat.mod_lt _ (by decide)
    rw [List.foldl_cons, hstep, ih ((acc * x) % 2 ^ 64) (by omega) hrest, List.prod_cons,
      Nat.mod_mul_mod, Nat.mul_assoc]
    intro k hk
    have hk1 := hrun (k + 1) (by simpa using hk)
    rw [List.take_succ_cons, List.prod_cons, ← Nat.mul_assoc] at hk1
    rw [Nat.mod_mul_mod]
    exact hk1

theorem prod_pos_and_le (range : List Nat) (hpos : ∀ x ∈ range, 0 < x) :
    0 < range.prod ∧ ∀ x ∈ range, x ≤ range.prod := by
  induction range with
  | nil => simp
  | cons y range ih =>
    obtain ⟨hp, hle⟩ := ih (fun x hx => hpos x (List.mem_cons_of_mem y hx))
    have hy : 0 < y := hpos y (List.mem_cons_self y range)
    refine ⟨by rw [List.prod_cons]; exact Nat.mul_pos hy hp, ?_⟩
    intro x hx
    rw [List.prod_cons]
    rcases List.mem_cons.mp hx with h | h
    · rw [h]
      exact Nat.le_mul_of_pos_right y hp
    · exact Nat.le_trans (hle x h) (Nat.le_mul_of_pos_left _ hy)

theorem dynamic_safe_product_spec (range : List Nat) :
    (is_dynamic_vdims range = true → dynamic_safe_product range = get_dynamic_value_size_t) ∧
    (is_dynamic_vdims range = false →
      (∀ k, k ≤ range.length → (range.take k).prod % 2 ^ 64 ≠ 2 ^ 64 - 1) →
      dynamic_safe_product range = range.prod % 2 ^ 64) ∧
    ((∀ x ∈ range, 0 < x) → range.prod < 2 ^ 64 - 1 →
      dynamic_safe_product range = range.prod) := by
  have hconc : is_dynamic_vdims range = false →
      (∀ k, k ≤ range.length → (range.take k).prod % 2 ^ 64 ≠ 2 ^ 64 - 1) →
      dynamic_safe_product range = range.prod % 2 ^ 64 := by
    intro hno hrun
    have h := foldl_dynamic_safe_mul_of_concrete range 1 (by decide) hno
      (by intro k hk; rw [Nat.one_mul]; exact hrun k hk)
    rw [Nat.one_mul] at h
    exact h
  refine ⟨fun h => foldl_dynamic_safe_mul_of_dynamic range 1 h, hconc, ?_⟩
  intro hpos hfit
  obtain ⟨_, hle⟩ := prod_pos_and_le range hpos
  have hno : is_dynamic_vdims range = false := by
    cases hr : is_dynamic_vdims range with
    | false => rfl
    | true =>
      simp only [is_dynamic_vdims, List.any_eq_true, is_dynamic_value_size_t,
        beq_iff_eq] at hr
      obtain ⟨x, hx, hxs⟩ := hr
      have := hle x hx
      simp only [get_dynamic_value_size_t] at hxs
      omega
  have hrun : ∀ k, k ≤ range.length → (range.take k).prod % 2 ^ 64 ≠ 2 ^ 64 - 1 := by
    intro k _
    have hsplit : (range.take k).prod * (range.drop k).prod = range.prod :=
      List.prod_take_mul_prod_drop range k
    have hdpos : 0 < (range.drop k).prod :=
      (prod_pos_and_le _ (fun x hx => hpos x (List.mem_of_mem_drop hx))).1
    have hle2 : (range.take k).prod ≤ range.prod := by
      rw [← hsplit]
      exact Nat.le_mul_of_pos_right _ hdpos
    rw [Nat.mod_eq_of_lt (by omega)]
    omega
  rw [hconc hno hrun, Nat.mod_eq_of_lt (by omega)]

theorem get_in_leading_dim_eq (shape layout : List Nat)
    (hlen : shape.length = layout.length) (h2 : 2 ≤ layout.length)
    (hp : layout.Perm (List.range layout.length)) :
    get_input_dim_idx layout 1 = .ok (layout.getD (layout.length - 2) 0) ∧
    layout[layout.length - 2]? = some (layout.getD (layout.length - 2) 0) ∧
    get_in_leading_dim shape layout
      = some (dynamic_safe_product (shape.drop (layout.getD (layout.length - 2) 0 + 1))) := by
  have h1 : 1 < layout.length := h2
  have h3 : layout.length - 2 < layout.length := by omega
  refine ⟨?_, ?_, ?_⟩
  · simp only [get_input_dim_idx, if_pos h1]
    congr 1
    rw [List.getD_eq_getElem?_getD, List.getD_eq_getElem?_getD, List.getElem?_reverse h1]
    rfl
  · simp [List.getD_eq_getElem?_getD, h3]
  · have hmem : layout.getD (layout.length - 2) 0 ∈ layout := by
      rw [List.getD_eq_getElem?_getD, List.getElem?_eq_getElem h3]
      exact List.getElem_mem h3
    have hd : layout.getD (layout.length - 2) 0 < shape.length := by
      rw [hlen]; exact perm_range_lt hp _ hmem
    simp only [get_in_leading_dim, if_neg (Nat.not_lt.mpr h2), if_pos hd]

theorem get_out_leading_dim_eq (shape layout : List Nat)
    (hlen : shape.length = layout.length) (h2 : 2 ≤ layout.length)
    (hp : layout.Perm (List.range layout.length)) :
    get_output_dim_idx layout 1 = .ok (layout.indexOf (layout.length - 2)) ∧
    layout[layout.indexOf (layout.length - 2)]? = some (layout.length - 2) ∧
    get_out_leading_dim shape layout
      = some (dynamic_safe_product (shape.drop (layout.indexOf (layout.length - 2) + 1))) := by
  have h1 : 1 < layout.length := h2
  have hmem : layout.length - 2 ∈ layout :=
    hp.mem_iff.mpr (List.mem_range.mpr (by omega))
  have hidx : layout.indexOf (layout.length - 2) < layout.length :=
    List.indexOf_lt_length.mpr hmem
  have hd : layout.indexOf (layout.length - 2) < shape.length := by
    rw [hlen]; exact hidx
  refine ⟨?_, ?_, ?_⟩
  · simp only [get_output_dim_idx, if_pos h1]
    rfl
  · rw [List.getElem?_eq_getElem hidx]
    simp
  · simp only [get_out_leading_dim, if_neg (Nat.not_lt.mpr h2), if_pos hd]

theorem sentinel_mul_mod (P : Nat) :
    ((2 ^ 64 - 1) * P) % 2 ^ 64 = (2 ^ 64 - P % 2 ^ 64) % 2 ^ 64 := by
  norm_num
  omega

theorem sentinel_mul_mod_eq_sentinel_iff (P : Nat) :
    ((2 ^ 64 - 1) * P) % 2 ^ 64 = 2 ^ 64 - 1 ↔ P % 2 ^ 64 = 1 := by
  norm_num
  omega

theorem accumulate_multiplies_insert_sentinel (pre post : List Nat) :
    accumulate_multiplies (pre ++ get_dynamic_value_size_t :: post)
      = ((2 ^ 64 - 1) * (pre ++ post).prod) % 2 ^ 64 := by
  rw [accumulate_multiplies_eq]
  simp only [List.prod_append, List.prod_cons, get_dynamic_value_size_t]
  congr 1
  ring

theorem accumulate_multiplies_sentinel_iff (pre post : List Nat) :
    accumulate_multiplies (pre ++ get_dynamic_value_size_t :: post)
        = get_dynamic_value_size_t ↔
      accumulate_multiplies (pre ++ post) = 1 := by
  rw [accumulate_multiplies_insert_sentinel, accumulate_multiplies_eq]
  exact sentinel_mul_mod_eq_sentinel_iff _

theorem is_dynamic_vdims_split (shape : List Nat) (h : is_dynamic_vdims shape = true) :
    ∃ pre post, shape = pre ++ get_dynamic_value_size_t :: post := by
  simp only [is_dynamic_vdims, List.any_eq_true, is_dynamic_value_size_t, beq_iff_eq] at h
  obtain ⟨x, hx, hxs⟩ := h
  subst hxs
  exact List.append_of_mem hx

/-- C7, the claim as stated fails: the shape `[sentinel, 2]` is dynamic, and
`get_shape_size` returns the wrapped product `2 ^ 64 - 2`, which is not the sentinel. -/
theorem get_shape_size_dynamic_counterexample :
    is_dynamic_vdims [2 ^ 64 - 1, 2] = true ∧
    get_shape_size [2 ^ 64 - 1, 2] = 2 ^ 64 - 2 ∧
    get_shape_size [2 ^ 64 - 1, 2] ≠ get_dynamic_value_size_t := by
  decide

/-- C7, amended: `get_shape_size` is the plain wrapping `size_t` product. A shape with a
dynamic dimension splits as `pre ++ sentinel :: post`, and for every such split
`get_shape_size` returns `(2 ^ 64 - P) mod 2 ^ 64`, where `P` is `get_shape_size` of the
other dimensions; this is the sentinel exactly when `P = 1`. -/
theorem get_shape_size_dynamic (shape : List Nat) (h : is_dynamic_vdims shape = true) :
    (∃ pre post, shape = pre ++ get_dynamic_value_size_t :: post) ∧
    ∀ pre post, shape = pre ++ get_dynamic_value_size_t :: post →
      get_shape_size shape = (2 ^ 64 - get_shape_size (pre ++ post)) % 2 ^ 64 ∧
      (get_shape_size shape = get_dynamic_value_size_t ↔
        get_shape_size (pre ++ post) = 1) := by
  refine ⟨is_dynamic_vdims_split shape h, ?_⟩
  intro pre post hs
  subst hs
  refine ⟨?_, accumulate_multiplies_sentinel_iff pre post⟩
  simp only [get_shape_size]
  rw [accumulate_multiplies_insert_sentinel, accumulate_multiplies_eq, sentinel_mul_mod]

/-- Witness for C7 (amended) at the shape `[1, sentinel, 1]`. -/
theorem get_shape_size_dynamic_witness :
    (∃ pre post, [1, 2 ^ 64 - 1, 1] = pre ++ get_dynamic_value_size_t :: post) ∧
    ∀ pre post, [1, 2 ^ 64 - 1, 1] = pre ++ get_dynamic_value_size_t :: post →
      get_shape_size [1, 2 ^ 64 - 1, 1]
        = (2 ^ 64 - get_shape_size (pre ++ post)) % 2 ^ 64 ∧
      (get_shape_size [1, 2 ^ 64 - 1, 1] = get_dynamic_value_size_t ↔
        get_shape_size (pre ++ post) = 1) :=
  get_shape_size_dynamic [1, 2 ^ 64 - 1, 1] (by decide)

theorem is_dynamic_vdims_drop_of_getElem? (shape : List Nat) (d i : Nat) (hdi : d < i)
    (hi : shape[i]? = some get_dynamic_value_size_t) :
    is_dynamic_vdims (shape.drop (d + 1)) = true := by
  have hget : (shape.drop (d + 1))[i - (d + 1)]? = some get_dynamic_value_size_t := by
    rw [List.getElem?_drop]
    have : d + 1 + (i - (d + 1)) = i := by omega
    rw [this]
    exact hi
  have hmem : get_dynamic_value_size_t ∈ shape.drop (d + 1) := List.getElem?_mem hget
  simp only [is_dynamic_vdims, List.any_eq_true]
  exact ⟨_, hmem, by simp [is_dynamic_value_size_t]⟩

end utils
end snippets
end ov

namespace ov
namespace intel_cpu

/-! ## Hash and completeness of `BrgemmKernelConfig` -/

theorem update_hash_eq (H : FieldHash) (c : BrgemmKernelConfig) (M N K LDA LDB LDC : Int) :
    (c.update H M N K LDA LDB LDC).m_hash
      = (c.update H M N K LDA LDB LDC).compute_hash H := by
  simp [BrgemmKernelConfig.update, BrgemmKernelConfig.compute_hash]

theorem ctor_hash_eq (H : FieldHash) (isa_of : Nat → Nat → Bool → Nat)
    (in0_dtype in1_dtype beta : Nat) (is_with_amx is_with_comp : Bool)
    (M N K LDA LDB LDC : Nat) :
    (BrgemmKernelConfig.ctor H isa_of in0_dtype in1_dtype beta is_with_amx is_with_comp
        M N K LDA LDB LDC).m_hash
      = (BrgemmKernelConfig.ctor H isa_of in0_dtype in1_dtype beta is_with_amx is_with_comp
        M N K LDA LDB LDC).compute_hash H := by
  simp [BrgemmKernelConfig.ctor, BrgemmKernelConfig.compute_hash]

theorem run_updates_hash_eq (H : FieldHash) (us : List UpdateArgs) (c : BrgemmKernelConfig)
    (hc : c.m_hash = c.compute_hash H) :
    (c.run_updates H us).m_hash = (c.run_updates H us).compute_hash H := by
  induction us generalizing c with
  | nil => simpa [BrgemmKernelConfig.run_updates] using hc
  | cons u us ih =>
    simp only [BrgemmKernelConfig.run_updates, List.foldl_cons]
    exact ih _ (update_hash_eq H c _ _ _ _ _ _)

theorem constructed_or_updated_hash_eq (H : FieldHash) (isa_of : Nat → Nat → Bool → Nat)
    (c : BrgemmKernelConfig) (hc : c.constructed_or_updated H isa_of) :
    c.m_hash = c.compute_hash H := by
  rcases hc with ⟨in0, in1, beta, amx, comp, M, N, K, LDA, LDB, LDC, us, rfl⟩ |
    ⟨c0, M, N, K, LDA, LDB, LDC, us, rfl⟩
  · exact run_updates_hash_eq H us _
      (ctor_hash_eq H isa_of in0 in1 beta amx comp M N K LDA LDB LDC)
  · exact run_updates_hash_eq H us _ (update_hash_eq H c0 M N K LDA LDB LDC)

theorem compute_hash_congr (H : FieldHash) (c1 c2 : BrgemmKernelConfig)
    (h : c1.same_fields c2) : c1.compute_hash H = c2.compute_hash H := by
  obtain ⟨h1, h2, h3, h4, h5, h6, h7, h8, h9, h10, h11, h12⟩ := h
  simp only [BrgemmKernelConfig.compute_hash, h1, h2, h3, h4, h5, h6, h7, h8, h9, h10, h11, h12]

/-- C10: `is_completed()` is false for a default-constructed configuration; it is true
exactly when `M`, `N`, `K`, `LDA`, `LDB`, `LDC` are all nonzero and the type and
instruction-set fields are resolved; on a configuration with resolved type fields it is
true after `update` with six nonzero values, and false again after a later `update` that
sets `M` to 0. -/
theorem is_completed_lifecycle (resolved : Nat → Nat → Nat → Bool) (H : FieldHash)
    (c : BrgemmKernelConfig) (M N K LDA LDB LDC N2 K2 LDA2 LDB2 LDC2 : Int)
    (hM : M ≠ 0) (hN : N ≠ 0) (hK : K ≠ 0) (hLDA : LDA ≠ 0) (hLDB : LDB ≠ 0)
    (hLDC : LDC ≠ 0) (hres : resolved c.m_dt_in0 c.m_dt_in1 c.m_isa = true) :
    BrgemmKernelConfig.ctor_default.is_completed resolved = false ∧
    (∀ c2 : BrgemmKernelConfig, c2.is_completed resolved = true ↔
      (c2.m_M ≠ 0 ∧ c2.m_N ≠ 0 ∧ c2.m_K ≠ 0 ∧ c2.m_LDA ≠ 0 ∧ c2.m_LDB ≠ 0 ∧ c2.m_LDC ≠ 0 ∧
        resolved c2.m_dt_in0 c2.m_dt_in1 c2.m_isa = true)) ∧
    (c.update H M N K LDA LDB LDC).is_completed resolved = true ∧
    ((c.update H M N K LDA LDB LDC).update H 0 N2 K2 LDA2 LDB2 LDC2).is_completed resolved
      = false := by
  refine ⟨?_, ?_, ?_, ?_⟩
  · simp [BrgemmKernelConfig.is_completed, BrgemmKernelConfig.ctor_default]
  · intro c2
    simp only [BrgemmKernelConfig.is_completed, Bool.and_eq_true, bne_iff_ne, ne_eq]
    tauto
  · simp [BrgemmKernelConfig.is_completed, BrgemmKernelConfig.update, hM, hN, hK, hLDA, hLDB,
      hLDC, hres]
  · simp [BrgemmKernelConfig.is_completed, BrgemmKernelConfig.update]

/-- Witness for C10: a default-constructed configuration with the instruction set resolved
to code 2, updated to `(4, 5, 6, 7, 8, 9)` and then to `(0, 5, 6, 7, 8, 9)`. -/
theorem is_completed_lifecycle_witness :
    BrgemmKernelConfig.ctor_default.is_completed sample_resolved = false ∧
    (∀ c2 : BrgemmKernelConfig, c2.is_completed sample_resolved = true ↔
      (c2.m_M ≠ 0 ∧ c2.m_N ≠ 0 ∧ c2.m_K ≠ 0 ∧ c2.m_LDA ≠ 0 ∧ c2.m_LDB ≠ 0 ∧ c2.m_LDC ≠ 0 ∧
        sample_resolved c2.m_dt_in0 c2.m_dt_in1 c2.m_isa = true)) ∧
    (BrgemmKernelConfig.update sample_field_hash
        { BrgemmKernelConfig.ctor_default with m_isa := 2 } 4 5 6 7 8 9).is_completed
      sample_resolved = true ∧
    ((BrgemmKernelConfig.update sample_field_hash
        { BrgemmKernelConfig.ctor_default with m_isa := 2 } 4 5 6 7 8 9).update
      sample_field_hash 0 5 6 7 8 9).is_completed sample_resolved = false :=
  is_completed_lifecycle sample_resolved sample_field_hash
    { BrgemmKernelConfig.ctor_default with m_isa := 2 } 4 5 6 7 8 9 5 6 7 8 9
    (by decide) (by decide) (by decide) (by decide) (by decide) (by decide) (by decide)

end intel_cpu
end ov

namespace ov
namespace intel_cpu

/-! ## Tile compatibility and cloning of `BrgemmKernelConfig` -/

/-- C11: for every configuration `c` and tile descriptor pointer `rhs`, `c.compatible(rhs)`
is true if and only if `rhs` is non-null and `rhs->M == c.M`, `rhs->N == c.N` and
`rhs->K == c.K`; it is false for a null descriptor; and a configuration `c2` with the same
`M`, `N`, `K` as `c` gives the same result, whatever its `LDA`, `LDB`, `LDC`, `beta`, data
types, flags and hash are. -/
theorem compatible_iff (c c2 : BrgemmKernelConfig) (rhs : Option amx_tile_config_t)
    (hM : c2.m_M = c.m_M) (hN : c2.m_N = c.m_N) (hK : c2.m_K = c.m_K) :
    (c.compatible rhs = true ↔
      ∃ t, rhs = some t ∧ t.M = c.get_M ∧ t.N = c.get_N ∧ t.K = c.get_K) ∧
    c.compatible none = false ∧
    c2.compatible rhs = c.compatible rhs := by
  refine ⟨?_, rfl, ?_⟩
  · cases rhs with
    | none => simp [BrgemmKernelConfig.compatible]
    | some t =>
      simp [BrgemmKernelConfig.compatible, BrgemmKernelConfig.get_M,
        BrgemmKernelConfig.get_N, BrgemmKernelConfig.get_K, and_assoc]
  · cases rhs with
    | none => rfl
    | some t => simp [BrgemmKernelConfig.compatible, hM, hN, hK]

/-- Witness for C11: a configuration with `(M, N, K) = (4, 5, 6)` and one with other leading
dimensions, `beta`, flags and data types, against the tile descriptor `(4, 6, 5)` in the
member order `M, K, N`. -/
theorem compatible_iff_witness :
    ((BrgemmKernelConfig.ctor sample_field_hash sample_isa_of 3 3 0 false false
        4 5 6 7 8 9).compatible (some ⟨4, 6, 5⟩) = true ↔
      ∃ t, some (⟨4, 6, 5⟩ : amx_tile_config_t) = some t ∧
        t.M = (BrgemmKernelConfig.ctor sample_field_hash sample_isa_of 3 3 0 false false
          4 5 6 7 8 9).get_M ∧
        t.N = (BrgemmKernelConfig.ctor sample_field_hash sample_isa_of 3 3 0 false false
          4 5 6 7 8 9).get_N ∧
        t.K = (BrgemmKernelConfig.ctor sample_field_hash sample_isa_of 3 3 0 false false
          4 5 6 7 8 9).get_K) ∧
    (BrgemmKernelConfig.ctor sample_field_hash sample_isa_of 3 3 0 false false
        4 5 6 7 8 9).compatible none = false ∧
    (BrgemmKernelConfig.ctor sample_field_hash sample_isa_of 2 5 1 true true
        4 5 6 70 80 90).compatible (some ⟨4, 6, 5⟩)
      = (BrgemmKernelConfig.ctor sample_field_hash sample_isa_of 3 3 0 false false
        4 5 6 7 8 9).compatible (some ⟨4, 6, 5⟩) :=
  compatible_iff
    (BrgemmKernelConfig.ctor sample_field_hash sample_isa_of 3 3 0 false false 4 5 6 7 8 9)
    (BrgemmKernelConfig.ctor sample_field_hash sample_isa_of 2 5 1 true true 4 5 6 70 80 90)
    (some ⟨4, 6, 5⟩) (by decide) (by decide) (by decide)

theorem copy_ctor_eq (c : BrgemmKernelConfig) : BrgemmKernelConfig.copy_ctor c = c := by
  cases c
  rfl

/-- C12: for the configuration `c` at address `this_ptr`, `clone()` succeeds and returns a
fresh address `p` that differs from `this_ptr`; the object at `p` answers every getter (data
types, instruction set, both flags, `beta`, `M`, `N`, `K`, `LDA`, `LDB`, `LDC`) and
`hash()` like `c` (the cached hash is copied); every object that existed before, `c`
included, is unchanged; and an `update` of the clone afterwards leaves `c` unchanged. -/
theorem clone_copies_all_fields (heap : ConfigHeap) (this_ptr : Nat) (c : BrgemmKernelConfig)
    (hc : heap[this_ptr]? = some c) :
    ∃ heap2 p cl, BrgemmKernelConfig.clone heap this_ptr = some (heap2, p) ∧
      heap2[p]? = some cl ∧ p ≠ this_ptr ∧
      cl.get_dt_in0 = c.get_dt_in0 ∧ cl.get_dt_in1 = c.get_dt_in1 ∧
      cl.get_isa = c.get_isa ∧ cl.is_with_amx = c.is_with_amx ∧
      cl.is_with_comp = c.is_with_comp ∧ cl.get_beta = c.get_beta ∧
      cl.get_M = c.get_M ∧ cl.get_N = c.get_N ∧ cl.get_K = c.get_K ∧
      cl.get_LDA = c.get_LDA ∧ cl.get_LDB = c.get_LDB ∧ cl.get_LDC = c.get_LDC ∧
      cl.hash = c.hash ∧
      heap2[this_ptr]? = some c ∧
      (∀ q, q < heap.length → heap2[q]? = heap[q]?) ∧
      (∀ (H : FieldHash) (M N K LDA LDB LDC : Int),
        (heap2.set p (cl.update H M N K LDA LDB LDC))[this_ptr]? = some c) := by
  have hlt : this_ptr < heap.length := by
    by_contra hge
    rw [List.getElem?_eq_none (Nat.le_of_not_lt hge)] at hc
    exact Option.noConfusion hc
  have hne : heap.length ≠ this_ptr := Nat.ne_of_gt hlt
  have hkeep : ∀ q, q < heap.length →
      (heap ++ [BrgemmKernelConfig.copy_ctor c])[q]? = heap[q]? :=
    fun q hq => List.getElem?_append_left hq
  refine ⟨heap ++ [BrgemmKernelConfig.copy_ctor c], heap.length,
    BrgemmKernelConfig.copy_ctor c, ?_, ?_, hne, rfl, rfl, rfl, rfl, rfl, rfl, rfl, rfl, rfl,
    rfl, rfl, rfl, rfl, ?_, hkeep, ?_⟩
  · simp only [BrgemmKernelConfig.clone, hc]
  · simp
  · rw [hkeep this_ptr hlt, hc]
  · intro H M N K LDA LDB LDC
    rw [List.getElem?_set_ne hne, hkeep this_ptr hlt, hc]

/-- Witness for C12: cloning, at address 1 of a heap of two objects, the configuration
constructed from `(2, 5, 1, true, true, 4, 5, 6, 7, 8, 9)`: every member differs from its
default member initializer, and the cached hash is 50, not `SIZE_MAX`. -/
theorem clone_copies_all_fields_witness :
    (∃ heap2 p cl,
      BrgemmKernelConfig.clone
        [BrgemmKernelConfig.ctor_default,
          BrgemmKernelConfig.ctor sample_field_hash sample_isa_of 2 5 1 true true 4 5 6 7 8 9] 1
        = some (heap2, p) ∧
      heap2[p]? = some cl ∧ p ≠ 1 ∧
      cl.get_dt_in0 = (BrgemmKernelConfig.ctor sample_field_hash sample_isa_of 2 5 1 true true
        4 5 6 7 8 9).get_dt_in0 ∧
      cl.get_dt_in1 = (BrgemmKernelConfig.ctor sample_field_hash sample_isa_of 2 5 1 true true
        4 5 6 7 8 9).get_dt_in1 ∧
      cl.get_isa = (BrgemmKernelConfig.ctor sample_field_hash sample_isa_of 2 5 1 true true
        4 5 6 7 8 9).get_isa ∧
      cl.is_with_amx = (BrgemmKernelConfig.ctor sample_field_hash sample_isa_of 2 5 1 true true
        4 5 6 7 8 9).is_with_amx ∧
      cl.is_with_comp = (BrgemmKernelConfig.ctor sample_field_hash sample_isa_of 2 5 1 true true
        4 5 6 7 8 9).is_with_comp ∧
      cl.get_beta = (BrgemmKernelConfig.ctor sample_field_hash sample_isa_of 2 5 1 true true
        4 5 6 7 8 9).get_beta ∧
      cl.get_M = (BrgemmKernelConfig.ctor sample_field_hash sample_isa_of 2 5 1 true true
        4 5 6 7 8 9).get_M ∧
      cl.get_N = (BrgemmKernelConfig.ctor sample_field_hash sample_isa_of 2 5 1 true true
        4 5 6 7 8 9).get_N ∧
      cl.get_K = (BrgemmKernelConfig.ctor sample_field_hash sample_isa_of 2 5 1 true true
        4 5 6 7 8 9).get_K ∧
      cl.get_LDA = (BrgemmKernelConfig.ctor sample_field_hash sample_isa_of 2 5 1 true true
        4 5 6 7 8 9).get_LDA ∧
      cl.get_LDB = (BrgemmKernelConfig.ctor sample_field_hash sample_isa_of 2 5 1 true true
        4 5 6 7 8 9).get_LDB ∧
      cl.get_LDC = (BrgemmKernelConfig.ctor sample_field_hash sample_isa_of 2 5 1 true true
        4 5 6 7 8 9).get_LDC ∧
      cl.hash = (BrgemmKernelConfig.ctor sample_field_hash sample_isa_of 2 5 1 true true
        4 5 6 7 8 9).hash ∧
      heap2[1]? = some (BrgemmKernelConfig.ctor sample_field_hash sample_isa_of 2 5 1 true true
        4 5 6 7 8 9) ∧
      (∀ q, q < [BrgemmKernelConfig.ctor_default,
          BrgemmKernelConfig.ctor sample_field_hash sample_isa_of 2 5 1 true true 4 5 6 7 8 9].length →
        heap2[q]? = [BrgemmKernelConfig.ctor_default,
          BrgemmKernelConfig.ctor sample_field_hash sample_isa_of 2 5 1 true true 4 5 6 7 8 9][q]?) ∧
      (∀ (H : FieldHash) (M N K LDA LDB LDC : Int),
        (heap2.set p (cl.update H M N K LDA LDB LDC))[1]?
          = some (BrgemmKernelConfig.ctor sample_field_hash sample_isa_of 2 5 1 true true
        4 5 6 7 8 9))) ∧
    (BrgemmKernelConfig.ctor sample_field_hash sample_isa_of 2 5 1 true true
        4 5 6 7 8 9).hash = 50 ∧
    (BrgemmKernelConfig.ctor sample_field_hash sample_isa_of 2 5 1 true true
        4 5 6 7 8 9).hash ≠ SIZE_MAX ∧
    (BrgemmKernelConfig.ctor sample_field_hash sample_isa_of 2 5 1 true true
        4 5 6 7 8 9)
      ≠ BrgemmKernelConfig.ctor_default :=
  ⟨clone_copies_all_fields
    [BrgemmKernelConfig.ctor_default,
      BrgemmKernelConfig.ctor sample_field_hash sample_isa_of 2 5 1 true true 4 5 6 7 8 9]
    1 (BrgemmKernelConfig.ctor sample_field_hash sample_isa_of 2 5 1 true true 4 5 6 7 8 9)
    rfl, by decide, by decide, by decide⟩

end intel_cpu
end ov

namespace ov
namespace snippets
namespace utils

/-! ## Assertions of the layout look-ups -/

/-- C13: `get_input_dim_idx(layout, dim_idx)` and `get_output_dim_idx(layout, dim_idx)` fail
with the assertion error if and only if `dim_idx >= layout.size()`, and return a value if
and only if `dim_idx < layout.size()`; on the empty layout both fail for every `dim_idx`. -/
theorem dim_idx_assertion (layout : List Nat) (dim_idx : Nat) :
    (get_input_dim_idx layout dim_idx = .error "Incorrect dim_idx" ↔
      layout.length ≤ dim_idx) ∧
    (get_output_dim_idx layout dim_idx = .error "Incorrect dim_idx" ↔
      layout.length ≤ dim_idx) ∧
    ((∃ v, get_input_dim_idx layout dim_idx = .ok v) ↔ dim_idx < layout.length) ∧
    ((∃ v, get_output_dim_idx layout dim_idx = .ok v) ↔ dim_idx < layout.length) ∧
    get_input_dim_idx [] dim_idx = .error "Incorrect dim_idx" ∧
    get_output_dim_idx [] dim_idx = .error "Incorrect dim_idx" := by
  refine ⟨?_, ?_, ?_, ?_, ?_, ?_⟩
  · by_cases h : dim_idx < layout.length
    · simp [get_input_dim_idx, h]
    · simp [get_input_dim_idx, h, Nat.le_of_not_lt h]
  · by_cases h : dim_idx < layout.length
    · simp [get_output_dim_idx, h]
    · simp [get_output_dim_idx, h, Nat.le_of_not_lt h]
  · by_cases h : dim_idx < layout.length
    · simp [get_input_dim_idx, h]
    · simp [get_input_dim_idx, h]
  · by_cases h : dim_idx < layout.length
    · simp [get_output_dim_idx, h]
    · simp [get_output_dim_idx, h]
  · simp [get_input_dim_idx]
  · simp [get_output_dim_idx]

/-! ## Sentinel arithmetic on concrete values -/

/-- C14: for concrete (non-sentinel) `size_t` values `a` and `b`, `dynamic_safe_add(a, b)` is
`a + b` modulo `2 ^ 64` and `dynamic_safe_mul(a, b)` is `a * b` modulo `2 ^ 64`; each equals the
ordinary sum, respectively product, whenever that value is below `2 ^ 64`. -/
theorem dynamic_safe_concrete (a b : Nat)
    (ha : a ≠ get_dynamic_value_size_t) (hb : b ≠ get_dynamic_value_size_t) :
    dynamic_safe_add_size_t a b = (a + b) % 2 ^ 64 ∧
    dynamic_safe_mul_size_t a b = (a * b) % 2 ^ 64 ∧
    (a + b < 2 ^ 64 → dynamic_safe_add_size_t a b = a + b) ∧
    (a * b < 2 ^ 64 → dynamic_safe_mul_size_t a b = a * b) := by
  have hadd : dynamic_safe_add_size_t a b = (a + b) % 2 ^ 64 := by
    simp [dynamic_safe_add_size_t, is_dynamic_value_size_t, ha, hb, SIZE_T_MOD]
  have hmul : dynamic_safe_mul_size_t a b = (a * b) % 2 ^ 64 := by
    simp [dynamic_safe_mul_size_t, is_dynamic_value_size_t, ha, hb, SIZE_T_MOD]
  refine ⟨hadd, hmul, ?_, ?_⟩
  · intro h
    rw [hadd, Nat.mod_eq_of_lt h]
  · intro h
    rw [hmul, Nat.mod_eq_of_lt h]

/-- Witness for C14 at `a = 2 ^ 63 + 1`, `b = 2 ^ 63 + 2`, whose sum and product wrap. -/
theorem dynamic_safe_concrete_witness :
    dynamic_safe_add_size_t (2 ^ 63 + 1) (2 ^ 63 + 2)
      = ((2 ^ 63 + 1) + (2 ^ 63 + 2)) % 2 ^ 64 ∧
    dynamic_safe_mul_size_t (2 ^ 63 + 1) (2 ^ 63 + 2)
      = ((2 ^ 63 + 1) * (2 ^ 63 + 2)) % 2 ^ 64 ∧
    ((2 ^ 63 + 1) + (2 ^ 63 + 2) < 2 ^ 64 →
      dynamic_safe_add_size_t (2 ^ 63 + 1) (2 ^ 63 + 2) = (2 ^ 63 + 1) + (2 ^ 63 + 2)) ∧
    ((2 ^ 63 + 1) * (2 ^ 63 + 2) < 2 ^ 64 →
      dynamic_safe_mul_size_t (2 ^ 63 + 1) (2 ^ 63 + 2) = (2 ^ 63 + 1) * (2 ^ 63 + 2)) :=
  dynamic_safe_concrete (2 ^ 63 + 1) (2 ^ 63 + 2) (by decide) (by decide)

/-- C15: `get_dynamic_value<size_t>()` is `2 ^ 64 - 1` and `get_dynamic_value<int64_t>()` is
`2 ^ 63 - 1`, each the maximum of its type; `is_dynamic_value(v)` is true iff `v` equals the
sentinel; and `is_dynamic_vdims(shape)` is true iff at least one dimension of the shape is
the sentinel, so it is false for the empty shape. -/
theorem dynamic_value_characterisation (v : Nat) (x : Int) (shape : List Nat) :
    get_dynamic_value_size_t = 2 ^ 64 - 1 ∧
    get_dynamic_value_int64_t = 2 ^ 63 - 1 ∧
    get_dynamic_value_size_t < 2 ^ 64 ∧
    (∀ n : Nat, n < 2 ^ 64 → n ≤ get_dynamic_value_size_t) ∧
    get_dynamic_value_int64_t < 2 ^ 63 ∧
    (∀ z : Int, z < 2 ^ 63 → z ≤ get_dynamic_value_int64_t) ∧
    (is_dynamic_value_size_t v = true ↔ v = get_dynamic_value_size_t) ∧
    (is_dynamic_value_int64_t x = true ↔ x = get_dynamic_value_int64_t) ∧
    (is_dynamic_vdims shape = true ↔ ∃ d ∈ shape, d = get_dynamic_value_size_t) ∧
    is_dynamic_vdims [] = false := by
  refine ⟨rfl, rfl, by decide, ?_, by decide, ?_, ?_, ?_, ?_, rfl⟩
  · intro n hn
    simp only [get_dynamic_value_size_t]
    omega
  · intro z hz
    simp only [get_dynamic_value_int64_t]
    omega
  · simp [is_dynamic_value_size_t]
  · simp [is_dynamic_value_int64_t]
  · simp [is_dynamic_vdims, is_dynamic_value_size_t]

/-! ## Formatting -/

theorem vector2str_loop_eq_go {T : Type} (value2str : T → String) (values : List T)
    (acc : String) :
    (values.foldl (vector2str_step value2str) (acc, false)).1
      = String.intercalate.go acc "," (values.map value2str) := by
  induction values generalizing acc with
  | nil => simp [String.intercalate.go]
  | cons v values ih =>
    simp only [List.foldl_cons, List.map_cons, String.intercalate.go]
    exact ih (acc ++ "," ++ value2str v)

theorem vector2str_loop_eq_intercalate {T : Type} (value2str : T → String)
    (values : List T) :
    (values.foldl (vector2str_step value2str) ("", true)).1
      = ",".intercalate (values.map value2str) := by
  cases values with
  | nil => simp [String.intercalate]
  | cons v values =>
    simp only [List.foldl_cons, List.map_cons, String.intercalate]
    have h : vector2str_step value2str ("", true) v = (value2str v, false) := by
      simp [vector2str_step]
    rw [h]
    exact vector2str_loop_eq_go value2str values (value2str v)

theorem vector2str_loop_append {T : Type} (value2str : T → String) (values : List T)
    (acc : String) :
    (values.foldl (vector2str_step value2str) (acc, false)).1
      = acc ++ (values.foldl (vector2str_step value2str) ("", false)).1 := by
  induction values generalizing acc with
  | nil => simp
  | cons v values ih =>
    simp only [List.foldl_cons]
    have h1 : vector2str_step value2str (acc, false) v = (acc ++ "," ++ value2str v, false) := by
      simp [vector2str_step]
    have h2 : vector2str_step value2str ("", false) v = ("," ++ value2str v, false) := by
      simp [vector2str_step]
    rw [h1, h2, ih (acc ++ "," ++ value2str v), ih ("," ++ value2str v)]
    simp only [String.append_assoc]

theorem vector2str_loop_cons_cons {T : Type} (value2str : T → String) (v w : T)
    (values : List T) :
    ((v :: w :: values).foldl (vector2str_step value2str) ("", true)).1
      = value2str v ++ ","
        ++ ((w :: values).foldl (vector2str_step value2str) ("", true)).1 := by
  simp only [List.foldl_cons]
  have h1 : vector2str_step value2str ("", true) v = (value2str v, false) := by
    simp [vector2str_step]
  have h2 : vector2str_step value2str (value2str v, false) w
      = (value2str v ++ "," ++ value2str w, false) := by
    simp [vector2str_step]
  have h3 : vector2str_step value2str ("", true) w = (value2str w, false) := by
    simp [vector2str_step]
  rw [h1, h2, h3, vector2str_loop_append value2str values (value2str v ++ "," ++ value2str w),
    vector2str_loop_append value2str values (value2str w)]
  simp only [String.append_assoc]

/-- C16: for every vector, `vector2str(values)` is the renderings `value2str(v)` of its
elements in order, joined by a single `","`: the empty vector gives the empty string, a
one-element vector the rendering of its element, and a longer vector the rendering of the
first element, `","`, and the formatting of the rest; `value2str(v)` is `"?"` for the
sentinel and the decimal digits of `v` (after `"-"` for a negative `int64_t`) otherwise. -/
theorem vector2str_joins_renderings (values : List Nat) (ivalues : List Int) (v w : Nat)
    (x y : Int) :
    vector2str_size_t values = ",".intercalate (values.map value2str_size_t) ∧
    vector2str_int64_t ivalues = ",".intercalate (ivalues.map value2str_int64_t) ∧
    vector2str_size_t [] = "" ∧ vector2str_int64_t [] = "" ∧
    vector2str_size_t [v] = value2str_size_t v ∧
    vector2str_int64_t [x] = value2str_int64_t x ∧
    vector2str_size_t (v :: w :: values)
      = value2str_size_t v ++ "," ++ vector2str_size_t (w :: values) ∧
    vector2str_int64_t (x :: y :: ivalues)
      = value2str_int64_t x ++ "," ++ vector2str_int64_t (y :: ivalues) ∧
    value2str_size_t v
      = (if v = get_dynamic_value_size_t then "?" else (Nat.toDigits 10 v).asString) ∧
    value2str_int64_t x
      = (if x = get_dynamic_value_int64_t then "?"
         else if 0 ≤ x then (Nat.toDigits 10 x.toNat).asString
         else "-" ++ (Nat.toDigits 10 (-x).toNat).asString) ∧
    vector2str_size_t [16, 2 ^ 64 - 1, 0] = "16,?,0" ∧
    vector2str_int64_t [-16, 2 ^ 63 - 1, 2 ^ 63 - 2] = "-16,?,9223372036854775806" := by
  refine ⟨vector2str_loop_eq_intercalate _ values, vector2str_loop_eq_intercalate _ ivalues,
    rfl, rfl, ?_, ?_, vector2str_loop_cons_cons _ v w values,
    vector2str_loop_cons_cons _ x y ivalues, ?_, ?_, by decide, by decide⟩
  · simp [vector2str_size_t, vector2str_step]
  · simp [vector2str_int64_t, vector2str_step]
  · simp only [value2str_size_t, is_dynamic_value_size_t, beq_iff_eq]
    rfl
  · simp only [value2str_int64_t, is_dynamic_value_int64_t, beq_iff_eq]
    by_cases hs : x = get_dynamic_value_int64_t
    · simp [hs]
    · simp only [if_neg hs]
      cases x with
      | ofNat m =>
        have h0 : (0 : Int) ≤ Int.ofNat m := Int.ofNat_nonneg m
        rw [if_pos h0]
        rfl
      | negSucc m =>
        have h0 : ¬ (0 : Int) ≤ Int.negSucc m := by
          have := Int.negSucc_lt_zero m
          omega
        rw [if_neg h0]
        rfl

/-! ## Values of the layout look-ups -/

theorem get_input_dim_idx_eq (layout : List Nat) (dim_idx : Nat)
    (h : dim_idx < layout.length) :
    get_input_dim_idx layout dim_idx
      = .ok (layout.getD (layout.length - 1 - dim_idx) 0) := by
  simp only [get_input_dim_idx, if_pos h]
  congr 1
  rw [List.getD_eq_getElem?_getD, List.getD_eq_getElem?_getD, List.getElem?_reverse h]

theorem get_output_dim_idx_eq (layout : List Nat) (dim_idx : Nat)
    (h : dim_idx < layout.length) :
    get_output_dim_idx layout dim_idx
      = .ok (layout.indexOf (layout.length - 1 - dim_idx)) := by
  simp only [get_output_dim_idx, if_pos h]

theorem getD_eq_of_getElem? (layout : List Nat) (i : Nat) (h : i < layout.length) :
    layout[i]? = some (layout.getD i 0) := by
  rw [List.getD_eq_getElem?_getD, List.getElem?_eq_getElem h]
  rfl

/-- C17: for every layout of size `n` and every `dim_idx < n`, `get_input_dim_idx(layout,
dim_idx)` returns `layout[n - 1 - dim_idx]`: `dim_idx` counts from the end of the layout, so
`dim_idx = 0` gives `layout.back()`; layout `[2,0,1,3]` with `dim_idx = 1` gives 1. -/
theorem get_input_dim_idx_from_end (layout : List Nat) (dim_idx : Nat)
    (h : dim_idx < layout.length) :
    (∃ v, get_input_dim_idx layout dim_idx = .ok v ∧
      layout[layout.length - 1 - dim_idx]? = some v) ∧
    (∃ v, get_input_dim_idx layout 0 = .ok v ∧ layout.getLast? = some v) ∧
    get_input_dim_idx [2, 0, 1, 3] 1 = .ok 1 ∧
    get_input_dim_idx [2, 0, 1, 3] 0 = .ok 3 := by
  have h0 : 0 < layout.length := Nat.lt_of_le_of_lt (Nat.zero_le _) h
  refine ⟨⟨_, get_input_dim_idx_eq layout dim_idx h, ?_⟩,
    ⟨_, get_input_dim_idx_eq layout 0 h0, ?_⟩, rfl, rfl⟩
  · exact getD_eq_of_getElem? layout _ (by omega)
  · rw [List.getLast?_eq_getElem?]
    exact getD_eq_of_getElem? layout _ (by omega)

/-- Witness for C17 at the layout `[2, 0, 1, 3]` with `dim_idx = 3`. -/
theorem get_input_dim_idx_from_end_witness :
    (∃ v, get_input_dim_idx [2, 0, 1, 3] 3 = .ok v ∧
      [2, 0, 1, 3][[2, 0, 1, 3].length - 1 - 3]? = some v) ∧
    (∃ v, get_input_dim_idx [2, 0, 1, 3] 0 = .ok v ∧ [2, 0, 1, 3].getLast? = some v) ∧
    get_input_dim_idx [2, 0, 1, 3] 1 = .ok 1 ∧
    get_input_dim_idx [2, 0, 1, 3] 0 = .ok 3 :=
  get_input_dim_idx_from_end [2, 0, 1, 3] 3 (by decide)

/-! ## Element count -/

/-- C18: `get_shape_size` is 1 for the rank-0 shape and, for every shape, the product of all
dimensions modulo `2 ^ 64`; hence in `size_t` arithmetic `get_shape_size(s ++ t)` is
`get_shape_size(s) * get_shape_size(t)`, and a permutation `s2` of the dimensions of `s` has
the same element count. -/
theorem get_shape_size_product (s t s2 : List Nat) (hperm : s2.Perm s) :
    get_shape_size [] = 1 ∧
    get_shape_size s = s.prod % 2 ^ 64 ∧
    get_shape_size (s ++ t) = (get_shape_size s * get_shape_size t) % 2 ^ 64 ∧
    get_shape_size s2 = get_shape_size s := by
  refine ⟨rfl, accumulate_multiplies_eq s, ?_, ?_⟩
  · simp only [get_shape_size, accumulate_multiplies_eq, List.prod_append]
    exact Nat.mul_mod _ _ _
  · simp only [get_shape_size, accumulate_multiplies_eq, hperm.prod_eq]

/-- Witness for C18 at `s = [2 ^ 63, 3, 2]`, `t = [5]` and the permutation
`[2, 2 ^ 63, 3]` of `s`, whose product wraps. -/
theorem get_shape_size_product_witness :
    get_shape_size [] = 1 ∧
    get_shape_size [2 ^ 63, 3, 2] = [2 ^ 63, 3, 2].prod % 2 ^ 64 ∧
    get_shape_size ([2 ^ 63, 3, 2] ++ [5])
      = (get_shape_size [2 ^ 63, 3, 2] * get_shape_size [5]) % 2 ^ 64 ∧
    get_shape_size [2, 2 ^ 63, 3] = get_shape_size [2 ^ 63, 3, 2] :=
  get_shape_size_product [2 ^ 63, 3, 2] [5] [2, 2 ^ 63, 3] (by decide)

/-! ## Position look-up and inverse look-ups -/

theorem getElem?_ne_of_lt_indexOf (a : Nat) (l : List Nat) (q : Nat)
    (hq : q < l.indexOf a) : l[q]? ≠ some a := by
  induction l generalizing q with
  | nil => simp at hq
  | cons b l ih =>
    by_cases hb : b = a
    · rw [List.indexOf_cons_eq l hb] at hq
      exact absurd hq (Nat.not_lt_zero q)
    · rw [List.indexOf_cons_ne l hb] at hq
      cases q with
      | zero => simpa using hb
      | succ q =>
        rw [List.getElem?_cons_succ]
        exact ih q (Nat.lt_of_succ_lt_succ hq)

theorem indexOf_eq_of_getElem? (l : List Nat) (hnd : l.Nodup) (a q : Nat)
    (hq : l[q]? = some a) : l.indexOf a = q := by
  obtain ⟨hlt, hget⟩ := List.getElem?_eq_some.mp hq
  rw [← hget]
  exact List.indexOf_getElem hnd q hlt

/-- C19: for every layout of size `n` and every `dim_idx < n`, `get_output_dim_idx(layout,
dim_idx)` returns without error a position `p`: when the layout contains the value
`n - 1 - dim_idx`, `p < n` is the first position holding it; when the layout does not
contain it, `p = n`; when the layout is a permutation of `0 .. n - 1` the value is always
found and `p` is the only position holding it. Layout `[2,0,1,3]` with `dim_idx = 1` gives
0, and layout `[0,0]` with `dim_idx = 0` gives the out-of-range position 2. -/
theorem get_output_dim_idx_finds_first (layout : List Nat) (dim_idx : Nat)
    (h : dim_idx < layout.length) :
    (∃ p, get_output_dim_idx layout dim_idx = .ok p ∧
      (layout.length - 1 - dim_idx ∈ layout →
        p < layout.length ∧ layout[p]? = some (layout.length - 1 - dim_idx) ∧
        ∀ q, q < p → layout[q]? ≠ some (layout.length - 1 - dim_idx)) ∧
      (layout.length - 1 - dim_idx ∉ layout → p = layout.length) ∧
      (layout.Perm (List.range layout.length) →
        p < layout.length ∧ layout[p]? = some (layout.length - 1 - dim_idx) ∧
        ∀ q, layout[q]? = some (layout.length - 1 - dim_idx) → q = p)) ∧
    get_output_dim_idx [2, 0, 1, 3] 1 = .ok 0 ∧
    get_output_dim_idx [2, 0, 1, 3] 0 = .ok 3 ∧
    get_output_dim_idx [0, 0] 0 = .ok 2 := by
  refine ⟨⟨_, get_output_dim_idx_eq layout dim_idx h, ?_, ?_, ?_⟩, rfl, rfl, rfl⟩
  · intro hmem
    exact ⟨List.indexOf_lt_length.mpr hmem, List.getElem?_indexOf hmem,
      fun q hq => getElem?_ne_of_lt_indexOf _ layout q hq⟩
  · intro hmem
    exact List.indexOf_eq_length.mpr hmem
  · intro hp
    have hmem : layout.length - 1 - dim_idx ∈ layout :=
      hp.mem_iff.mpr (List.mem_range.mpr (by omega))
    exact ⟨List.indexOf_lt_length.mpr hmem, List.getElem?_indexOf hmem,
      fun q hq => (indexOf_eq_of_getElem? layout (perm_range_nodup hp) _ q hq).symm⟩

/-- Witness for C19 at the layout `[2, 0, 2, 3]` with `dim_idx = 1`, where the value 2
occurs twice. -/
theorem get_output_dim_idx_finds_first_witness :
    (∃ p, get_output_dim_idx [2, 0, 2, 3] 1 = .ok p ∧
      ([2, 0, 2, 3].length - 1 - 1 ∈ [2, 0, 2, 3] →
        p < [2, 0, 2, 3].length ∧ [2, 0, 2, 3][p]? = some ([2, 0, 2, 3].length - 1 - 1) ∧
        ∀ q, q < p → [2, 0, 2, 3][q]? ≠ some ([2, 0, 2, 3].length - 1 - 1)) ∧
      ([2, 0, 2, 3].length - 1 - 1 ∉ [2, 0, 2, 3] → p = [2, 0, 2, 3].length) ∧
      ([2, 0, 2, 3].Perm (List.range [2, 0, 2, 3].length) →
        p < [2, 0, 2, 3].length ∧ [2, 0, 2, 3][p]? = some ([2, 0, 2, 3].length - 1 - 1) ∧
        ∀ q, [2, 0, 2, 3][q]? = some ([2, 0, 2, 3].length - 1 - 1) → q = p)) ∧
    get_output_dim_idx [2, 0, 1, 3] 1 = .ok 0 ∧
    get_output_dim_idx [2, 0, 1, 3] 0 = .ok 3 ∧
    get_output_dim_idx [0, 0] 0 = .ok 2 :=
  get_output_dim_idx_finds_first [2, 0, 2, 3] 1 (by decide)

/-- C20: for every layout that is a permutation of `0 .. n - 1` and every `d < n`, the two
look-ups invert each other: with `v = get_input_dim_idx(layout, d)`,
`get_output_dim_idx(layout, n - 1 - v)` is `n - 1 - d`, and with
`p = get_output_dim_idx(layout, d)`, `get_input_dim_idx(layout, n - 1 - p)` is `n - 1 - d`.
On the identity layout both return `n - 1 - d`; on the layout `[2,0,1,3]` with `d = 1` they
differ: the input look-up gives 1, the output look-up gives 0. -/
theorem dim_idx_lookups_inverse (layout : List Nat) (d : Nat)
    (hp : layout.Perm (List.range layout.length)) (hd : d < layout.length) :
    (∃ v, get_input_dim_idx layout d = .ok v ∧
      get_output_dim_idx layout (layout.length - 1 - v) = .ok (layout.length - 1 - d)) ∧
    (∃ p, get_output_dim_idx layout d = .ok p ∧
      get_input_dim_idx layout (layout.length - 1 - p) = .ok (layout.length - 1 - d)) ∧
    get_input_dim_idx (List.range layout.length) d = .ok (layout.length - 1 - d) ∧
    get_output_dim_idx (List.range layout.length) d = .ok (layout.length - 1 - d) ∧
    get_input_dim_idx [2, 0, 1, 3] 1 = .ok 1 ∧
    get_output_dim_idx [2, 0, 1, 3] 1 = .ok 0 := by
  have hnd := perm_range_nodup hp
  have hi : layout.length - 1 - d < layout.length := by omega
  refine ⟨⟨_, get_input_dim_idx_eq layout d hd, ?_⟩,
    ⟨_, get_output_dim_idx_eq layout d hd, ?_⟩, ?_, ?_, rfl, rfl⟩
  · have hget := getD_eq_of_getElem? layout _ hi
    have hv : layout.getD (layout.length - 1 - d) 0 < layout.length :=
      perm_range_lt hp _ (List.getElem?_mem hget)
    rw [get_output_dim_idx_eq layout _ (by omega)]
    congr 1
    have hsub : layout.length - 1 - (layout.length - 1 - layout.getD (layout.length - 1 - d) 0)
        = layout.getD (layout.length - 1 - d) 0 := by omega
    rw [hsub]
    exact indexOf_eq_of_getElem? layout hnd _ _ hget
  · have hmem : layout.length - 1 - d ∈ layout :=
      hp.mem_iff.mpr (List.mem_range.mpr hi)
    have hlt : layout.indexOf (layout.length - 1 - d) < layout.length :=
      List.indexOf_lt_length.mpr hmem
    rw [get_input_dim_idx_eq layout _ (by omega)]
    congr 1
    have hsub : layout.length - 1 - (layout.length - 1 - layout.indexOf (layout.length - 1 - d))
        = layout.indexOf (layout.length - 1 - d) := by omega
    rw [hsub]
    have h1 := getD_eq_of_getElem? layout _ hlt
    rw [List.getElem?_indexOf hmem] at h1
    exact (Option.some.inj h1).symm
  · rw [get_input_dim_idx_eq _ d (by simpa using hd)]
    congr 1
    simp only [List.length_range]
    have h1 := getD_eq_of_getElem? (List.range layout.length) (layout.length - 1 - d)
      (by simpa using hi)
    rw [List.getElem?_range hi] at h1
    exact (Option.some.inj h1).symm
  · rw [get_output_dim_idx_eq _ d (by simpa using hd)]
    congr 1
    simp only [List.length_range]
    exact indexOf_eq_of_getElem? _ (List.nodup_range _) _ _ (List.getElem?_range hi)

/-- Witness for C20 at the layout `[2, 0, 1, 3]` with `d = 1`. -/
theorem dim_idx_lookups_inverse_witness :
    (∃ v, get_input_dim_idx [2, 0, 1, 3] 1 = .ok v ∧
      get_output_dim_idx [2, 0, 1, 3] ([2, 0, 1, 3].length - 1 - v)
        = .ok ([2, 0, 1, 3].length - 1 - 1)) ∧
    (∃ p, get_output_dim_idx [2, 0, 1, 3] 1 = .ok p ∧
      get_input_dim_idx [2, 0, 1, 3] ([2, 0, 1, 3].length - 1 - p)
        = .ok ([2, 0, 1, 3].length - 1 - 1)) ∧
    get_input_dim_idx (List.range [2, 0, 1, 3].length) 1 = .ok ([2, 0, 1, 3].length - 1 - 1) ∧
    get_output_dim_idx (List.range [2, 0, 1, 3].length) 1
      = .ok ([2, 0, 1, 3].length - 1 - 1) ∧
    get_input_dim_idx [2, 0, 1, 3] 1 = .ok 1 ∧
    get_output_dim_idx [2, 0, 1, 3] 1 = .ok 0 :=
  dim_idx_lookups_inverse [2, 0, 1, 3] 1 (by decide) (by decide)

end utils
end snippets
end ov

namespace ov
namespace snippets
namespace utils

/-! ## When sentinel arithmetic returns the sentinel -/

/-- C21, the claim as stated fails: `2 ^ 64 - 2` and `1` are concrete, and so are
`2 ^ 32 + 1` and `2 ^ 32 - 1`, yet `dynamic_safe_add(2 ^ 64 - 2, 1)` and
`dynamic_safe_mul(2 ^ 32 + 1, 2 ^ 32 - 1)` are both `2 ^ 64 - 1`, the sentinel. -/
theorem dynamic_safe_sentinel_from_concrete_counterexample :
    is_dynamic_value_size_t (2 ^ 64 - 2) = false ∧
    is_dynamic_value_size_t 1 = false ∧
    dynamic_safe_add_size_t (2 ^ 64 - 2) 1 = get_dynamic_value_size_t ∧
    is_dynamic_value_size_t (2 ^ 32 + 1) = false ∧
    is_dynamic_value_size_t (2 ^ 32 - 1) = false ∧
    dynamic_safe_mul_size_t (2 ^ 32 + 1) (2 ^ 32 - 1) = get_dynamic_value_size_t := by
  decide

/-- C21, amended: `dynamic_safe_add(a, b)` is the sentinel if and only if `a` or `b` is the
sentinel or the sum `a + b` is `2 ^ 64 - 1` modulo `2 ^ 64`, and `dynamic_safe_mul(a, b)` is
the sentinel if and only if `a` or `b` is the sentinel or the product `a * b` is
`2 ^ 64 - 1` modulo `2 ^ 64`; so concrete operands whose sum, respectively product, is
below `2 ^ 64 - 1` never produce the sentinel. -/
theorem dynamic_safe_sentinel_iff (a b : Nat) :
    (dynamic_safe_add_size_t a b = get_dynamic_value_size_t ↔
      a = get_dynamic_value_size_t ∨ b = get_dynamic_value_size_t ∨
        (a + b) % 2 ^ 64 = 2 ^ 64 - 1) ∧
    (dynamic_safe_mul_size_t a b = get_dynamic_value_size_t ↔
      a = get_dynamic_value_size_t ∨ b = get_dynamic_value_size_t ∨
        (a * b) % 2 ^ 64 = 2 ^ 64 - 1) ∧
    (a ≠ get_dynamic_value_size_t → b ≠ get_dynamic_value_size_t → a + b < 2 ^ 64 - 1 →
      dynamic_safe_add_size_t a b ≠ get_dynamic_value_size_t) ∧
    (a ≠ get_dynamic_value_size_t → b ≠ get_dynamic_value_size_t → a * b < 2 ^ 64 - 1 →
      dynamic_safe_mul_size_t a b ≠ get_dynamic_value_size_t) := by
  have hadd : dynamic_safe_add_size_t a b = get_dynamic_value_size_t ↔
      a = get_dynamic_value_size_t ∨ b = get_dynamic_value_size_t ∨
        (a + b) % 2 ^ 64 = 2 ^ 64 - 1 := by
    by_cases ha : a = get_dynamic_value_size_t
    · simp [dynamic_safe_add_size_t, is_dynamic_value_size_t, ha]
    · by_cases hb : b = get_dynamic_value_size_t
      · simp [dynamic_safe_add_size_t, is_dynamic_value_size_t, hb]
      · have ha2 : ¬ a = 18446744073709551615 := ha
        have hb2 : ¬ b = 18446744073709551615 := hb
        simp [dynamic_safe_add_size_t, is_dynamic_value_size_t, ha2, hb2, SIZE_T_MOD,
          get_dynamic_value_size_t]
  have hmul : dynamic_safe_mul_size_t a b = get_dynamic_value_size_t ↔
      a = get_dynamic_value_size_t ∨ b = get_dynamic_value_size_t ∨
        (a * b) % 2 ^ 64 = 2 ^ 64 - 1 := by
    by_cases ha : a = get_dynamic_value_size_t
    · simp [dynamic_safe_mul_size_t, is_dynamic_value_size_t, ha]
    · by_cases hb : b = get_dynamic_value_size_t
      · simp [dynamic_safe_mul_size_t, is_dynamic_value_size_t, hb]
      · have ha2 : ¬ a = 18446744073709551615 := ha
        have hb2 : ¬ b = 18446744073709551615 := hb
        simp [dynamic_safe_mul_size_t, is_dynamic_value_size_t, ha2, hb2, SIZE_T_MOD,
          get_dynamic_value_size_t]
  refine ⟨hadd, hmul, ?_, ?_⟩
  · intro ha hb hlt hs
    rcases hadd.mp hs with h | h | h
    · exact ha h
    · exact hb h
    · rw [Nat.mod_eq_of_lt (by omega)] at h
      omega
  · intro ha hb hlt hs
    rcases hmul.mp hs with h | h | h
    · exact ha h
    · exact hb h
    · rw [Nat.mod_eq_of_lt (by omega)] at h
      omega

/-! ## Rounded-up division -/

theorem size_t_pred_wrap (x : Nat) (hpos : 0 < x) (hfit : x - 1 < 2 ^ 64) :
    ((x % 2 ^ 64) + (2 ^ 64 - 1)) % 2 ^ 64 = x - 1 := by
  norm_num at hfit ⊢
  omega

theorem ceil_div_le_iff (a b q2 : Nat) (hb : 0 < b) :
    (a + b - 1) / b ≤ q2 ↔ a ≤ q2 * b := by
  rw [← Nat.lt_succ_iff, Nat.div_lt_iff_lt_mul hb, Nat.succ_mul]
  omega

/-- C22: for `size_t` operands, `div_up(a, b)` fails with the assertion error if and only
if `b == 0`; for `b > 0` and `a + b - 1 < 2 ^ 64` it returns the ceiling of `a / b`: the
least `q` with `q * b >= a`, which is `a / b` exactly when `b` divides `a`, and 0 for
`a = 0`. -/
theorem div_up_is_ceiling (a b : Nat) (hb : 0 < b) (hfit : a + b - 1 < 2 ^ 64) :
    (∀ a2 b2 : Nat, div_up_size_t a2 b2 = .error "Divider must not be zero" ↔ b2 = 0) ∧
    (∃ q, div_up_size_t a b = .ok q ∧ a ≤ q * b ∧ (∀ q2, a ≤ q2 * b → q ≤ q2) ∧
      (q = a / b ↔ b ∣ a)) ∧
    div_up_size_t 0 b = .ok 0 := by
  have hne : b ≠ 0 := Nat.pos_iff_ne_zero.mp hb
  have hval : ∀ x : Nat, x + b - 1 < 2 ^ 64 →
      div_up_size_t x b = .ok ((x + b - 1) / b) := by
    intro x hx
    simp only [div_up_size_t, bne_iff_ne, ne_eq, hne, not_false_eq_true, if_true, SIZE_T_MOD]
    rw [size_t_pred_wrap (x + b) (by omega) hx]
  refine ⟨?_, ⟨_, hval a hfit, ?_, ?_, ?_⟩, ?_⟩
  · intro a2 b2
    by_cases h : b2 = 0
    · simp [div_up_size_t, h]
    · simp [div_up_size_t, h]
  · exact (ceil_div_le_iff a b _ hb).mp (Nat.le_refl _)
  · intro q2 hq2
    exact (ceil_div_le_iff a b q2 hb).mpr hq2
  · constructor
    · intro hq
      have h1 : a ≤ (a + b - 1) / b * b := (ceil_div_le_iff a b _ hb).mp (Nat.le_refl _)
      rw [hq] at h1
      have h2 : a / b * b ≤ a := Nat.div_mul_le_self a b
      exact Dvd.intro_left (a / b) (Nat.le_antisymm h2 h1)
    · intro hdvd
      obtain ⟨k, rfl⟩ := hdvd
      rw [Nat.mul_div_cancel_left k hb]
      apply Nat.le_antisymm
      · exact (ceil_div_le_iff (b * k) b k hb).mpr (by rw [Nat.mul_comm])
      · rw [Nat.le_div_iff_mul_le hb, Nat.mul_comm]
        omega
  · rw [hval 0 (by omega)]
    congr 1
    rw [Nat.zero_add]
    exact Nat.div_eq_of_lt (by omega)

/-- Witness for C22 at `a = 2 ^ 64 - 4`, `b = 4`, where `a + b - 1` is the largest
`size_t` value. -/
theorem div_up_is_ceiling_witness :
    (∀ a2 b2 : Nat, div_up_size_t a2 b2 = .error "Divider must not be zero" ↔ b2 = 0) ∧
    (∃ q, div_up_size_t (2 ^ 64 - 4) 4 = .ok q ∧ 2 ^ 64 - 4 ≤ q * 4 ∧
      (∀ q2, 2 ^ 64 - 4 ≤ q2 * 4 → q ≤ q2) ∧
      (q = (2 ^ 64 - 4) / 4 ↔ 4 ∣ 2 ^ 64 - 4)) ∧
    div_up_size_t 0 4 = .ok 0 :=
  div_up_is_ceiling (2 ^ 64 - 4) 4 (by decide) (by decide)

end utils
end snippets
end ov

namespace ov
namespace intel_cpu

/-! ## Collapsing dimensions to the ACL rank limit -/

theorem foldl_set_getElem? (f : Nat → Nat) (idxs : List Nat) (r : List Nat) (j : Nat) :
    (idxs.foldl (fun r i => r.set i (f i)) r)[j]?
      = if j ∈ idxs then (r[j]?).map (fun _ => f j) else r[j]? := by
  induction idxs generalizing r with
  | nil => simp
  | cons i idxs ih =>
    simp only [List.foldl_cons, ih, List.mem_cons]
    by_cases hji : j = i
    · subst hji
      by_cases hlt : j < r.length
      · simp [hlt]
      · have h1 : (r.set j (f j))[j]? = none :=
          List.getElem?_eq_none (by rw [List.length_set]; exact Nat.le_of_not_lt hlt)
        simp [h1, List.getElem?_eq_none (Nat.le_of_not_lt hlt)]
    · have hij : i ≠ j := fun h => hji h.symm
      simp [hji, List.getElem?_set_ne hij]

theorem copy_loop_eq (dims : List Nat) (k : Nat) (hk : k ≤ dims.length) :
    (List.range k).foldl (fun r i => r.set i (dims.getD i 0)) (List.replicate k 0)
      = dims.take k := by
  apply List.ext_getElem?
  intro j
  rw [foldl_set_getElem? (fun i => dims.getD i 0)]
  by_cases hj : j < k
  · have hjd : j < dims.length := Nat.lt_of_lt_of_le hj hk
    simp [hj, List.getElem?_take, hjd, List.getD_eq_getElem?_getD]
  · simp [hj, List.getElem?_take, Nat.le_of_not_lt hj]

theorem multiply_loop_eq (m : Nat) (vs : List Nat) (r : List Nat) :
    vs.foldl (fun r v => r.set m ((r.getD m 0 * v) % 2 ^ 64)) r
      = if vs = [] then r
        else r.set m (vs.foldl (fun acc v => (acc * v) % 2 ^ 64) (r.getD m 0)) := by
  induction vs generalizing r with
  | nil => simp
  | cons v vs ih =>
    simp only [List.foldl_cons, ih]
    by_cases hvs : vs = []
    · simp [hvs]
    · simp only [hvs, if_false, List.set_set, reduceCtorEq]
      by_cases hm : m < r.length
      · simp [List.getD_eq_getElem?_getD, hm]
      · have hge : r.length ≤ m := Nat.le_of_not_lt hm
        simp [List.getD_eq_getElem?_getD, List.getElem?_eq_none hge,
          List.set_eq_of_length_le hge]

theorem map_getD_range' (dims : List Nat) (s : Nat) :
    (List.range' s (dims.length - s)).map (fun i => dims.getD i 0) = dims.drop s := by
  apply List.ext_getElem?
  intro j
  by_cases hj : j < dims.length - s
  · have h2 : s + j < dims.length := by omega
    simp [List.getElem?_range', hj, List.getElem?_drop, List.getD_eq_getElem?_getD, h2]
  · have h2 : dims.length ≤ s + j := by omega
    have h3 : dims.length - s ≤ j := by omega
    simp [List.getElem?_drop, List.getElem?_eq_none h2, h3]

theorem foldl_mulmod_of_ne_nil (x : Nat) (vs : List Nat) (hvs : vs ≠ []) :
    vs.foldl (fun acc v => (acc * v) % 2 ^ 64) x = (x * vs.prod) % 2 ^ 64 := by
  cases vs with
  | nil => exact absurd rfl hvs
  | cons v vs =>
    have h := ov.snippets.utils.foldl_multiplies_eq vs ((x * v) % 2 ^ 64)
      (Nat.mod_lt _ (by decide))
    simp only [ov.snippets.utils.SIZE_T_MOD] at h
    simp only [List.foldl_cons, List.prod_cons]
    rw [h, Nat.mod_mul_mod, Nat.mul_assoc]

theorem take_succ_set_last (dims : List Nat) (n y : Nat) (hn : n < dims.length) :
    (dims.take (n + 1)).set n y = dims.take n ++ [y] := by
  apply List.ext_getElem?
  intro j
  rcases Nat.lt_trichotomy j n with hj | hj | hj
  · have hne : n ≠ j := by omega
    have hj1 : j < n + 1 := by omega
    have hj2 : j < (dims.take n).length := by simp; omega
    rw [List.getElem?_set_ne hne, List.getElem?_append_left hj2]
    simp [List.getElem?_take, hj, hj1]
  · subst hj
    have h1 : j < (dims.take (j + 1)).length := by simp; omega
    have h2 : (dims.take j).length ≤ j := by simp
    rw [List.getElem?_set_self h1, List.getElem?_append_right h2]
    simp [Nat.min_eq_left (Nat.le_of_lt hn)]
  · have hne : n ≠ j := by omega
    have h1 : (dims.take (n + 1)).length ≤ j := by simp; omega
    have h2 : (dims.take n ++ [y]).length ≤ j := by simp; omega
    rw [List.getElem?_set_ne hne, List.getElem?_eq_none h1, List.getElem?_eq_none h2]

theorem collapse_eq_of_ge (n : Nat) (dims : List Nat) (hlen : n + 2 ≤ dims.length) :
    collapse_dims_to_max_rank (n + 2) dims
      = dims.take n ++ [(dims.drop n).prod % 2 ^ 64] := by
  have hn : n < dims.length := by omega
  have hne : dims.drop (n + 1) ≠ [] := by
    intro h
    have := congrArg List.length h
    simp at this
    omega
  have hx : (dims.take (n + 1)).getD n 0 = dims.getD n 0 := by
    simp [List.getD_eq_getElem?_getD, List.getElem?_take]
  have hloop : (List.range' (n + 1) (dims.length - (n + 1))).foldl
      (fun r i => r.set n ((r.getD n 0 * dims.getD i 0) % 2 ^ 64)) (dims.take (n + 1))
      = (dims.drop (n + 1)).foldl (fun r v => r.set n ((r.getD n 0 * v) % 2 ^ 64))
          (dims.take (n + 1)) := by
    rw [← map_getD_range' dims (n + 1), List.foldl_map]
  simp only [collapse_dims_to_max_rank, ge_iff_le, hlen, if_true, Nat.add_sub_cancel]
  have h21 : n + 2 - 1 = n + 1 := rfl
  rw [h21, copy_loop_eq dims (n + 1) (by omega), hloop, multiply_loop_eq, if_neg hne, hx,
    foldl_mulmod_of_ne_nil _ _ hne, take_succ_set_last dims n _ hn]
  congr 3
  rw [List.drop_eq_getElem_cons hn, List.prod_cons]
  simp [List.getD_eq_getElem?_getD, hn]

theorem collapse_eq_of_lt (MAX_DIMS : Nat) (dims : List Nat) (h : dims.length < MAX_DIMS) :
    collapse_dims_to_max_rank MAX_DIMS dims = dims := by
  simp only [collapse_dims_to_max_rank, ge_iff_le, Nat.not_le.mpr h, if_false]

/-- C23: with `MAX_DIMS >= 2` (6 in the Compute Library), `collapse_dims_to_max_rank(dims)`
has rank at most `MAX_DIMS - 1`; it returns `dims` unchanged when `dims.size() < MAX_DIMS`,
and otherwise `MAX_DIMS - 1` values whose first `MAX_DIMS - 2` entries are those of `dims`
and whose last entry is the `size_t` product of `dims[MAX_DIMS - 2 .. end]`; the product of
all dimensions is preserved (modulo `2 ^ 64`, and exactly when the collapsed product is
below `2 ^ 64`), and the function is idempotent. For `MAX_DIMS = 6`,
`[1,2,3,4,5,6,7]` collapses to `[1,2,3,4,210]`. -/
theorem collapse_dims_to_max_rank_squashes (MAX_DIMS : Nat) (dims : List Nat)
    (hM : 2 ≤ MAX_DIMS) :
    (collapse_dims_to_max_rank MAX_DIMS dims).length ≤ MAX_DIMS - 1 ∧
    (dims.length < MAX_DIMS → collapse_dims_to_max_rank MAX_DIMS dims = dims) ∧
    (MAX_DIMS ≤ dims.length →
      (collapse_dims_to_max_rank MAX_DIMS dims).length = MAX_DIMS - 1 ∧
      (collapse_dims_to_max_rank MAX_DIMS dims).take (MAX_DIMS - 2)
        = dims.take (MAX_DIMS - 2) ∧
      (collapse_dims_to_max_rank MAX_DIMS dims)[MAX_DIMS - 2]?
        = some ((dims.drop (MAX_DIMS - 2)).prod % 2 ^ 64)) ∧
    (collapse_dims_to_max_rank MAX_DIMS dims).prod % 2 ^ 64 = dims.prod % 2 ^ 64 ∧
    ((dims.drop (MAX_DIMS - 2)).prod < 2 ^ 64 →
      (collapse_dims_to_max_rank MAX_DIMS dims).prod = dims.prod) ∧
    collapse_dims_to_max_rank MAX_DIMS (collapse_dims_to_max_rank MAX_DIMS dims)
      = collapse_dims_to_max_rank MAX_DIMS dims ∧
    collapse_dims_to_max_rank 6 [1, 2, 3, 4, 5, 6, 7] = [1, 2, 3, 4, 210] ∧
    collapse_dims_to_max_rank 6 [1, 2, 3, 4, 5] = [1, 2, 3, 4, 5] := by
  obtain ⟨n, rfl⟩ : ∃ n, MAX_DIMS = n + 2 := ⟨MAX_DIMS - 2, by omega⟩
  have h2 : n + 2 - 2 = n := rfl
  have h1 : n + 2 - 1 = n + 1 := rfl
  rw [h2, h1]
  by_cases hlen : n + 2 ≤ dims.length
  · have hn : n ≤ dims.length := by omega
    have htl : (dims.take n).length = n := by simp [hn]
    have hsplit : dims.prod = (dims.take n).prod * (dims.drop n).prod :=
      (List.prod_take_mul_prod_drop dims n).symm
    rw [collapse_eq_of_ge n dims hlen]
    have hrl : (dims.take n ++ [(dims.drop n).prod % 2 ^ 64]).length = n + 1 := by
      simp [hn]
    refine ⟨by rw [hrl], fun h => absurd hlen (Nat.not_le.mpr h), fun _ => ⟨hrl, ?_, ?_⟩,
      ?_, ?_, ?_, by decide, by decide⟩
    · rw [List.take_append_of_le_length (by rw [htl]), List.take_take, Nat.min_self]
    · rw [List.getElem?_append_right (by rw [htl]), htl, Nat.sub_self]
      rfl
    · rw [List.prod_append, List.prod_singleton, hsplit, Nat.mul_mod_mod]
    · intro hfit
      rw [List.prod_append, List.prod_singleton, hsplit, Nat.mod_eq_of_lt hfit]
    · exact collapse_eq_of_lt _ _ (by rw [hrl]; omega)
  · have hlt : dims.length < n + 2 := Nat.not_le.mp hlen
    rw [collapse_eq_of_lt _ dims hlt]
    refine ⟨by omega, fun _ => rfl, fun h => absurd h hlen, rfl, fun _ => rfl, ?_, by decide,
      by decide⟩
    exact collapse_eq_of_lt _ dims hlt

/-- Witness for C23 at `MAX_DIMS = 6` and the dims `[1, 2, 3, 4, 2 ^ 63, 2, 3]`, whose
collapsed product wraps. -/
theorem collapse_dims_to_max_rank_squashes_witness :
    (collapse_dims_to_max_rank 6 [1, 2, 3, 4, 2 ^ 63, 2, 3]).length ≤ 6 - 1 ∧
    ([1, 2, 3, 4, 2 ^ 63, 2, 3].length < 6 →
      collapse_dims_to_max_rank 6 [1, 2, 3, 4, 2 ^ 63, 2, 3] = [1, 2, 3, 4, 2 ^ 63, 2, 3]) ∧
    (6 ≤ [1, 2, 3, 4, 2 ^ 63, 2, 3].length →
      (collapse_dims_to_max_rank 6 [1, 2, 3, 4, 2 ^ 63, 2, 3]).length = 6 - 1 ∧
      (collapse_dims_to_max_rank 6 [1, 2, 3, 4, 2 ^ 63, 2, 3]).take (6 - 2)
        = [1, 2, 3, 4, 2 ^ 63, 2, 3].take (6 - 2) ∧
      (collapse_dims_to_max_rank 6 [1, 2, 3, 4, 2 ^ 63, 2, 3])[6 - 2]?
        = some (([1, 2, 3, 4, 2 ^ 63, 2, 3].drop (6 - 2)).prod % 2 ^ 64)) ∧
    (collapse_dims_to_max_rank 6 [1, 2, 3, 4, 2 ^ 63, 2, 3]).prod % 2 ^ 64
      = [1, 2, 3, 4, 2 ^ 63, 2, 3].prod % 2 ^ 64 ∧
    (([1, 2, 3, 4, 2 ^ 63, 2, 3].drop (6 - 2)).prod < 2 ^ 64 →
      (collapse_dims_to_max_rank 6 [1, 2, 3, 4, 2 ^ 63, 2, 3]).prod
        = [1, 2, 3, 4, 2 ^ 63, 2, 3].prod) ∧
    collapse_dims_to_max_rank 6 (collapse_dims_to_max_rank 6 [1, 2, 3, 4, 2 ^ 63, 2, 3])
      = collapse_dims_to_max_rank 6 [1, 2, 3, 4, 2 ^ 63, 2, 3] ∧
    collapse_dims_to_max_rank 6 [1, 2, 3, 4, 5, 6, 7] = [1, 2, 3, 4, 210] ∧
    collapse_dims_to_max_rank 6 [1, 2, 3, 4, 5] = [1, 2, 3, 4, 5] :=
  collapse_dims_to_max_rank_squashes 6 [1, 2, 3, 4, 2 ^ 63, 2, 3] (by decide)

/-! ## Layout change to NH_C -/

theorem mover_of_length_le_two (shape : List Nat) (h : shape.length ≤ 2) :
    mover shape = shape := by
  have h4 : ¬ shape.length > 4 := by omega
  have h3 : ¬ shape.length > 3 := by omega
  have h2 : ¬ shape.length > 2 := by omega
  simp only [mover, h4, h3, h2, if_false]

theorem mover_of_five (s0 s1 s2 s3 s4 : Nat) (rest : List Nat) :
    mover (s0 :: s1 :: s2 :: s3 :: s4 :: rest) = s3 :: s0 :: s1 :: s2 :: s4 :: rest := by
  simp [mover, swap_dims]

theorem mover_perm (shape : List Nat) : (mover shape).Perm shape := by
  match shape with
  | [] => exact List.Perm.refl _
  | [_] => exact List.Perm.refl _
  | [_, _] => exact List.Perm.refl _
  | [s0, s1, s2] => exact List.Perm.swap s0 s1 [s2]
  | [s0, s1, s2, s3] =>
    have h : mover [s0, s1, s2, s3] = [s2] ++ [s0, s1] ++ [s3] := rfl
    rw [h]
    exact List.Perm.append_right [s3] List.perm_append_comm
  | s0 :: s1 :: s2 :: s3 :: s4 :: rest =>
    rw [mover_of_five]
    exact List.Perm.append_right (s4 :: rest)
      (List.perm_append_comm : ([s3] ++ [s0, s1, s2]).Perm ([s0, s1, s2] ++ [s3]))

theorem changeLayout_getElem? (listDims : List Nat) (heap : List (List Nat)) (q : Nat) :
    (changeLayoutToNH_C heap listDims)[q]?
      = (heap[q]?).map (Nat.iterate mover (listDims.count q)) := by
  induction listDims generalizing heap with
  | nil => simp [changeLayoutToNH_C]
  | cons ptr listDims ih =>
    have hstep : changeLayoutToNH_C heap (ptr :: listDims)
        = changeLayoutToNH_C (heap.set ptr (mover (heap.getD ptr []))) listDims := rfl
    rw [hstep, ih]
    by_cases hq : ptr = q
    · subst hq
      rw [List.count_cons_self, Function.iterate_succ]
      by_cases hlt : ptr < heap.length
      · simp [hlt, List.getD_eq_getElem?_getD]
      · have hge : heap.length ≤ ptr := Nat.le_of_not_lt hlt
        rw [List.getElem?_eq_none (by rw [List.length_set]; exact hge),
          List.getElem?_eq_none hge]
        rfl
    · rw [List.getElem?_set_ne hq, List.count_cons_of_ne (fun h => hq h.symm)]

theorem changeLayout_length (listDims : List Nat) (heap : List (List Nat)) :
    (changeLayoutToNH_C heap listDims).length = heap.length := by
  induction listDims generalizing heap with
  | nil => rfl
  | cons ptr listDims ih =>
    have hstep : changeLayoutToNH_C heap (ptr :: listDims)
        = changeLayoutToNH_C (heap.set ptr (mover (heap.getD ptr []))) listDims := rfl
    rw [hstep, ih, List.length_set]

theorem iterate_mover_perm (n : Nat) (shape : List Nat) :
    (Nat.iterate mover n shape).Perm shape := by
  induction n generalizing shape with
  | zero => exact List.Perm.refl _
  | succ n ih =>
    rw [Function.iterate_succ_apply]
    exact (ih (mover shape)).trans (mover_perm shape)

/-- C24: `changeLayoutToNH_C` changes only the order of the dimensions of the shapes it is
given. The shape behind a pointer that is not in the list is unchanged, the shape behind a
pointer listed once is replaced by `mover` of it (in general `mover` is applied once per
occurrence of the pointer), and no shape is added or removed. `mover` leaves a shape with at
most 2 dimensions unchanged, turns `[s0,s1,s2]` into `[s1,s0,s2]`, `[s0,s1,s2,s3]` into
`[s2,s0,s1,s3]` and `[s0,s1,s2,s3,s4]` into `[s3,s0,s1,s2,s4]`, and every resulting shape
is a permutation of the original one. -/
theorem changeLayoutToNH_C_permutes (heap : List (List Nat)) (listDims : List Nat) :
    (changeLayoutToNH_C heap listDims).length = heap.length ∧
    (∀ q, q ∉ listDims → (changeLayoutToNH_C heap listDims)[q]? = heap[q]?) ∧
    (∀ ptr, listDims.count ptr = 1 →
      (changeLayoutToNH_C heap listDims)[ptr]? = (heap[ptr]?).map mover) ∧
    (∀ q, (changeLayoutToNH_C heap listDims)[q]?
      = (heap[q]?).map (Nat.iterate mover (listDims.count q))) ∧
    (∀ (q : Nat) (before after : List Nat), heap[q]? = some before →
      (changeLayoutToNH_C heap listDims)[q]? = some after → after.Perm before) ∧
    (∀ shape : List Nat, shape.length ≤ 2 → mover shape = shape) ∧
    (∀ s0 s1 s2 : Nat, mover [s0, s1, s2] = [s1, s0, s2]) ∧
    (∀ s0 s1 s2 s3 : Nat, mover [s0, s1, s2, s3] = [s2, s0, s1, s3]) ∧
    (∀ s0 s1 s2 s3 s4 : Nat, mover [s0, s1, s2, s3, s4] = [s3, s0, s1, s2, s4]) ∧
    (∀ shape : List Nat, (mover shape).Perm shape) ∧
    changeLayoutToNH_C [[16, 2, 32, 64], [7, 8, 9], [5, 6]] [2, 0]
      = [[32, 16, 2, 64], [7, 8, 9], [5, 6]] := by
  refine ⟨changeLayout_length listDims heap, ?_, ?_, changeLayout_getElem? listDims heap, ?_,
    mover_of_length_le_two, fun _ _ _ => rfl, fun _ _ _ _ => rfl,
    fun s0 s1 s2 s3 s4 => mover_of_five s0 s1 s2 s3 s4 [], mover_perm, by decide⟩
  · intro q hq
    rw [changeLayout_getElem?, List.count_eq_zero_of_not_mem hq]
    cases heap[q]? <;> rfl
  · intro ptr hc
    rw [changeLayout_getElem?, hc]
    rfl
  · intro q before after hb ha
    rw [changeLayout_getElem?, hb] at ha
    have h := Option.some.inj ha
    rw [← h]
    exact iterate_mover_perm _ before

end intel_cpu
end ov
